import Mathlib

/-!
Verification of the core state model of the quickwit-inc/scuttlebutt
(chitchat) repository, shallowly embedded from src/chitchat/src/state.rs,
src/chitchat/src/digest.rs, src/chitchat/src/failure_detector.rs and
src/chitchat/src/server.rs.

Machine integers (u64, u16, usize) are modelled as Nat: the modelled
operations only compare, take maxima of, or increment these counters, so no
wraparound is reachable. Instants of the monotonic clock are modelled as Nat
in state.rs and as Rat in failure_detector.rs / server.rs (where f64
arithmetic on seconds occurs; every f64 value appearing in a settled claim is
exactly representable, so Rat is faithful at those points).

The BTreeMap of key-values is modelled as an association list with unique
keys; entry insertion replaces in place or appends.
-/

/-- Socket address (v4 or v6) carried by a ChitchatId.
Modelled from the spec: the types module is not under src/; spec §4.7
describes the address encoding as "tagged v4/v6 + port". -/
inductive SocketAddr where
  | v4 (ip : List Nat) (port : Nat)
  | v6 (ip : List Nat) (port : Nat)
deriving DecidableEq

/-- Peer identity (node_id, generation_id, gossip_advertise_addr).
Modelled from the spec §3 "Peer identity": the types module is not under
src/. Equality is by all three fields. -/
structure ChitchatId where
  node_id : String
  generation_id : Nat
  gossip_advertise_addr : SocketAddr
deriving DecidableEq

/-- Runtime deletion status of a versioned value, with the instant the status
was entered. Modelled from the spec §3: DeletionStatus ∈ { Set,
DeleteAfterTtl(t), Deleted(t) }; the types module is not under src/. -/
inductive DeletionStatus where
  | set
  | deleteAfterTtl (t : Nat)
  | deleted (t : Nat)
deriving DecidableEq

/-- Only the Deleted status is a tombstone hidden from readers (spec §4.1:
get returns the value iff the status is Set or DeleteAfterTtl). -/
def DeletionStatus.isDeleted : DeletionStatus → Bool
  | .deleted _ => true
  | _ => false

/-- Start instant of the scheduled deletion, present for DeleteAfterTtl and
Deleted (spec §4.1, tombstone GC: "each entry whose status carries a
scheduled-for-deletion start time"). -/
def DeletionStatus.timeOfStartScheduledForDeletion : DeletionStatus → Option Nat
  | .set => none
  | .deleteAfterTtl t => some t
  | .deleted t => some t

/-- Status mutation carried by a delta KV (timeless; the receiver stamps it
with its local now). Modelled from the spec §3/§4.1: the types module is not
under src/. -/
inductive DeletionStatusMutation where
  | set
  | delete
  | deleteAfterTtl
deriving DecidableEq

/-- A mutation is tombstone-producing iff it is Delete or DeleteAfterTtl:
exactly the statuses the tombstone GC can reclaim. Modelled from the spec. -/
def DeletionStatusMutation.scheduledForDeletion : DeletionStatusMutation → Bool
  | .set => false
  | _ => true

/-- Conversion of a status mutation into a runtime status, stamping the local
instant now (spec §4.1: "Convert status-mutation to runtime status using
`now` for any time stamp"). -/
def DeletionStatusMutation.intoStatus : DeletionStatusMutation → Nat → DeletionStatus
  | .set, _ => .set
  | .delete, now => .deleted now
  | .deleteAfterTtl, now => .deleteAfterTtl now

/-- A versioned value (value, version, status), spec §3; the types module is
not under src/. -/
structure VersionedValue where
  value : String
  version : Nat
  status : DeletionStatus
deriving DecidableEq

/-- VersionedValue::is_deleted. -/
def VersionedValue.isDeleted (vv : VersionedValue) : Bool :=
  vv.status.isDeleted

/-- A key-value mutation of a delta (key, value, version, status-mutation),
spec §3 "Delta"; the delta module is not under src/ but the shape is pinned
by the tests in state.rs (KeyValueMutation { key, value, version, status }). -/
structure KeyValueMutation where
  key : String
  value : String
  version : Nat
  status : DeletionStatusMutation
deriving DecidableEq

/-- A per-node diff of a delta (chitchat_id, from_version_excluded,
last_gc_version, optional max_version, ordered KV mutations), spec §3
"Delta"; shape pinned by the tests in state.rs. -/
structure NodeDelta where
  chitchat_id : ChitchatId
  from_version_excluded : Nat
  last_gc_version : Nat
  max_version : Option Nat
  key_values : List KeyValueMutation
deriving DecidableEq

/-- Key change event pushed to listeners (state.rs KeyChangeEvent). -/
structure KeyChangeEvent where
  key : String
  value : String
  node : ChitchatId
deriving DecidableEq

/-- NodeState from state.rs: heartbeat, versioned key-value map (association
list with unique keys, standing for the BTreeMap), max_version and
last_gc_version. -/
structure NodeState where
  chitchat_id : ChitchatId
  heartbeat : Nat
  key_values : List (String × VersionedValue)
  max_version : Nat
  last_gc_version : Nat
deriving DecidableEq

/-- Lookup in the association list standing for the BTreeMap. -/
def kvGet : List (String × VersionedValue) → String → Option VersionedValue
  | [], _ => none
  | (k0, v0) :: rest, k => if k0 = k then some v0 else kvGet rest k

/-- Entry insertion in the association list standing for the BTreeMap:
replace in place when the key is present, append otherwise. -/
def kvInsert : List (String × VersionedValue) → String → VersionedValue → List (String × VersionedValue)
  | [], k, v => [(k, v)]
  | (k0, v0) :: rest, k, v =>
    if k0 = k then (k0, v) :: rest else (k0, v0) :: kvInsert rest k v

/-- NodeState::new (state.rs): fresh state with empty kv map, heartbeat 0 and
both versions zero. -/
def NodeState.newNode (chitchat_id : ChitchatId) : NodeState :=
  { chitchat_id := chitchat_id
    heartbeat := 0
    key_values := []
    max_version := 0
    last_gc_version := 0 }

/-- NodeState::set_versioned_value_internal (state.rs): raise max_version to
the update version, reject the update if the existing entry has a version at
least as recent, otherwise install it; report an update iff the installed
value is not deleted. -/
def setVersionedValueInternal (s : NodeState) (key : String) (vvu : VersionedValue) :
    NodeState × Bool :=
  match kvGet s.key_values key with
  | some occupied =>
    if vvu.version ≤ occupied.version then
      ({ s with max_version := max vvu.version s.max_version }, false)
    else
      ({ s with max_version := max vvu.version s.max_version,
                key_values := kvInsert s.key_values key vvu }, !vvu.isDeleted)
  | none =>
      ({ s with max_version := max vvu.version s.max_version,
                key_values := kvInsert s.key_values key vvu }, !vvu.isDeleted)

/-- is_key_value_applicable (state.rs lines 66-82). -/
def isKeyValueApplicable (m : KeyValueMutation) (maxVersion lastGcVersion : Nat) : Bool :=
  if m.version ≤ maxVersion then false
  else if m.status.scheduledForDeletion && decide (m.version ≤ lastGcVersion) then false
  else true

/-- Maximum version among the KV mutations of a delta, falling back to the
carried max_version when there is no KV (state.rs lines 207-217). -/
def NodeDelta.deltaMaxVersion (d : NodeDelta) : Option Nat :=
  match (d.key_values.map (fun m => m.version)).max? with
  | some v => some v
  | none => d.max_version

/-- Lexicographic order on (last_gc_version, max_version) pairs, as the Rust
tuple comparison in state.rs line 219. -/
def lexLe (a b : Nat × Nat) : Bool :=
  decide (a.1 < b.1) || (decide (a.1 = b.1) && decide (a.2 ≤ b.2))

/-- NodeState::prepare_apply_delta (state.rs lines 168-258). Returns the
applicability flag together with the (possibly reset) node state. -/
def prepareApplyDelta (s : NodeState) (d : NodeDelta) : Bool × NodeState :=
  if s.max_version < d.from_version_excluded then (false, s)
  else if d.last_gc_version < s.max_version then (true, s)
  else if d.last_gc_version ≤ s.last_gc_version then (true, s)
  else
    match d.deltaMaxVersion with
    | none => (false, s)
    | some dmv =>
      if lexLe (d.last_gc_version, dmv) (s.last_gc_version, s.max_version) then (false, s)
      else
        let fresh0 := NodeState.newNode d.chitchat_id
        let fresh1 :=
          match d.max_version with
          | some mv => if d.key_values.isEmpty then { fresh0 with max_version := mv } else fresh0
          | none => fresh0
        (true, { fresh1 with last_gc_version := d.last_gc_version })

/-- Mutation loop of NodeState::apply_delta (state.rs lines 269-292):
currentMaxVersion is the max_version captured once before the loop. -/
def applyDeltaLoop (s : NodeState) (now : Nat) (currentMaxVersion : Nat) :
    List KeyValueMutation → List KeyChangeEvent → NodeState × List KeyChangeEvent
  | [], events => (s, events)
  | m :: rest, events =>
    if isKeyValueApplicable m currentMaxVersion s.last_gc_version then
      let r := setVersionedValueInternal s m.key
        { value := m.value, version := m.version, status := m.status.intoStatus now }
      let events1 :=
        if r.2 then events ++ [{ key := m.key, value := m.value, node := r.1.chitchat_id }]
        else events
      applyDeltaLoop r.1 now currentMaxVersion rest events1
    else
      applyDeltaLoop s now currentMaxVersion rest events

/-- NodeState::apply_delta (state.rs lines 260-293). -/
def applyDelta (s : NodeState) (d : NodeDelta) (now : Nat) (events : List KeyChangeEvent) :
    NodeState × List KeyChangeEvent :=
  if (prepareApplyDelta s d).1 then
    applyDeltaLoop (prepareApplyDelta s d).2 now (prepareApplyDelta s d).2.max_version
      d.key_values events
  else ((prepareApplyDelta s d).2, events)

/-- Concrete peer identity used by the closed witnesses. -/
def cidA : ChitchatId :=
  { node_id := "node-a", generation_id := 1, gossip_advertise_addr := .v4 [127, 0, 0, 1] 7280 }

/-- Second concrete peer identity used by the closed witnesses. -/
def cidB : ChitchatId :=
  { node_id := "node-b", generation_id := 1, gossip_advertise_addr := .v4 [127, 0, 0, 1] 7281 }

/-- Third concrete peer identity used by the closed witnesses. -/
def cidC : ChitchatId :=
  { node_id := "node-c", generation_id := 2, gossip_advertise_addr := .v4 [127, 0, 0, 2] 7282 }

/-- C1: for a delta that is not from the future (from_version_excluded at
most our max_version), prepare_apply_delta returns true and leaves the state
unchanged when max_version exceeds the delta's last_gc_version or our
last_gc_version is at least the delta's; otherwise, with delta_max_version
the max KV mutation version or the delta's carried max_version when it has
no KVs, it returns false and leaves the state unchanged when that value is
absent or when (delta.last_gc_version, delta_max_version) is lexicographically
at most (self.last_gc_version, self.max_version); in the remaining case it
returns true and replaces the state with a fresh NodeState (empty kv map,
heartbeat 0) whose last_gc_version is the delta's, and whose max_version is
the delta's carried max_version exactly when the delta carries one and has no
KV mutations. -/
theorem prepare_apply_delta_spec (s : NodeState) (d : NodeDelta)
    (h : d.from_version_excluded ≤ s.max_version) :
    ((d.last_gc_version < s.max_version ∨ d.last_gc_version ≤ s.last_gc_version) →
        prepareApplyDelta s d = (true, s)) ∧
    (¬ (d.last_gc_version < s.max_version ∨ d.last_gc_version ≤ s.last_gc_version) →
        ((d.deltaMaxVersion = none → prepareApplyDelta s d = (false, s)) ∧
         (∀ dmv, d.deltaMaxVersion = some dmv →
            (lexLe (d.last_gc_version, dmv) (s.last_gc_version, s.max_version) = true →
               prepareApplyDelta s d = (false, s)) ∧
            (lexLe (d.last_gc_version, dmv) (s.last_gc_version, s.max_version) = false →
               prepareApplyDelta s d =
                 (true,
                   { chitchat_id := d.chitchat_id
                     heartbeat := 0
                     key_values := []
                     max_version :=
                       if d.key_values.isEmpty then d.max_version.getD 0 else 0
                     last_gc_version := d.last_gc_version }))))) := by
  have hnf : ¬ s.max_version < d.from_version_excluded := by omega
  constructor
  · intro hc
    rcases hc with hc | hc
    · simp [prepareApplyDelta, hnf, hc]
    · by_cases h2 : d.last_gc_version < s.max_version
      · simp [prepareApplyDelta, hnf, h2]
      · simp [prepareApplyDelta, hnf, h2, hc]
  · intro hc
    push_neg at hc
    obtain ⟨h2, h3⟩ := hc
    have h2n : ¬ d.last_gc_version < s.max_version := by omega
    have h3n : ¬ d.last_gc_version ≤ s.last_gc_version := by omega
    constructor
    · intro hnone
      simp [prepareApplyDelta, hnf, h2n, h3n, hnone]
    · intro dmv hdmv
      constructor
      · intro hlex
        simp [prepareApplyDelta, hnf, h2n, h3n, hdmv, hlex]
      · intro hlex
        cases hmv : d.max_version with
        | none =>
          simp [prepareApplyDelta, hnf, h2n, h3n, hdmv, hlex, hmv, NodeState.newNode]
        | some mv =>
          by_cases hkvs : d.key_values.isEmpty
          · simp [prepareApplyDelta, hnf, h2n, h3n, hdmv, hlex, hmv, NodeState.newNode, hkvs]
          · simp [prepareApplyDelta, hnf, h2n, h3n, hdmv, hlex, hmv, NodeState.newNode, hkvs]

/-- Closed witness for C1: a concrete non-future delta triggering the reset
branch, with the fresh state taking the delta's carried max_version. -/
theorem prepare_apply_delta_spec_witness :
    prepareApplyDelta
        { chitchat_id := cidA, heartbeat := 4, key_values := [], max_version := 5,
          last_gc_version := 0 }
        { chitchat_id := cidA, from_version_excluded := 3, last_gc_version := 20,
          max_version := some 25, key_values := [] } =
      (true,
        { chitchat_id := cidA, heartbeat := 0, key_values := [], max_version := 25,
          last_gc_version := 20 }) := by
  have h := prepare_apply_delta_spec
    { chitchat_id := cidA, heartbeat := 4, key_values := [], max_version := 5,
      last_gc_version := 0 }
    { chitchat_id := cidA, from_version_excluded := 3, last_gc_version := 20,
      max_version := some 25, key_values := [] }
    (by decide)
  have h2 := (h.2 (by decide)).2 25 (by decide)
  have h3 := h2.2 (by decide)
  simpa using h3

/-- The internal setter never changes last_gc_version. -/
theorem setVVI_last_gc (s : NodeState) (k : String) (vv : VersionedValue) :
    (setVersionedValueInternal s k vv).1.last_gc_version = s.last_gc_version := by
  cases h : kvGet s.key_values k with
  | none => simp [setVersionedValueInternal, h]
  | some occ =>
    by_cases h2 : vv.version ≤ occ.version <;> simp [setVersionedValueInternal, h, h2]

/-- The internal setter never changes the chitchat_id. -/
theorem setVVI_chitchat_id (s : NodeState) (k : String) (vv : VersionedValue) :
    (setVersionedValueInternal s k vv).1.chitchat_id = s.chitchat_id := by
  cases h : kvGet s.key_values k with
  | none => simp [setVersionedValueInternal, h]
  | some occ =>
    by_cases h2 : vv.version ≤ occ.version <;> simp [setVersionedValueInternal, h, h2]

/-- The internal setter sets max_version to the max of the update version and
the previous max_version, in every branch. -/
theorem setVVI_max (s : NodeState) (k : String) (vv : VersionedValue) :
    (setVersionedValueInternal s k vv).1.max_version = max vv.version s.max_version := by
  cases h : kvGet s.key_values k with
  | none => simp [setVersionedValueInternal, h]
  | some occ =>
    by_cases h2 : vv.version ≤ occ.version <;> simp [setVersionedValueInternal, h, h2]

/-- A mutation whose version is at most the reference max_version is never
applicable. -/
theorem applicable_false_of_le (m : KeyValueMutation) (maxV gcV : Nat)
    (h : m.version ≤ maxV) : isKeyValueApplicable m maxV gcV = false := by
  simp [isKeyValueApplicable, h]

/-- Characterization of inapplicability. -/
theorem applicable_false_iff (m : KeyValueMutation) (maxV gcV : Nat) :
    isKeyValueApplicable m maxV gcV = false ↔
      m.version ≤ maxV ∨ (m.status.scheduledForDeletion = true ∧ m.version ≤ gcV) := by
  unfold isKeyValueApplicable
  by_cases h1 : m.version ≤ maxV
  · simp [h1]
  · by_cases h2 : m.status.scheduledForDeletion
    · by_cases h3 : m.version ≤ gcV <;> simp [h1, h2, h3]
    · simp [h1, h2]

/-- The apply loop never changes last_gc_version. -/
theorem loop_last_gc (now M : Nat) :
    ∀ (kvs : List KeyValueMutation) (s : NodeState) (events : List KeyChangeEvent),
      (applyDeltaLoop s now M kvs events).1.last_gc_version = s.last_gc_version := by
  intro kvs
  induction kvs with
  | nil => intro s events; rfl
  | cons m rest ih =>
    intro s events
    by_cases h : isKeyValueApplicable m M s.last_gc_version = true
    · simp only [applyDeltaLoop]
      rw [if_pos h, ih]
      exact setVVI_last_gc ..
    · simp only [applyDeltaLoop]
      rw [if_neg h]
      exact ih s events

/-- The apply loop never decreases max_version. -/
theorem loop_max_mono (now M : Nat) :
    ∀ (kvs : List KeyValueMutation) (s : NodeState) (events : List KeyChangeEvent),
      s.max_version ≤ (applyDeltaLoop s now M kvs events).1.max_version := by
  intro kvs
  induction kvs with
  | nil => intro s events; exact Nat.le_refl _
  | cons m rest ih =>
    intro s events
    by_cases h : isKeyValueApplicable m M s.last_gc_version = true
    · simp only [applyDeltaLoop]
      rw [if_pos h]
      refine Nat.le_trans ?_ (ih ..)
      rw [setVVI_max]
      exact Nat.le_max_right ..
    · simp only [applyDeltaLoop]
      rw [if_neg h]
      exact ih s events

/-- Every mutation that is applicable at loop entry ends up bounded by the
final max_version. -/
theorem loop_applied_version_le (now M : Nat) :
    ∀ (kvs : List KeyValueMutation) (s : NodeState) (events : List KeyChangeEvent)
      (m : KeyValueMutation), m ∈ kvs →
      isKeyValueApplicable m M s.last_gc_version = true →
      m.version ≤ (applyDeltaLoop s now M kvs events).1.max_version := by
  intro kvs
  induction kvs with
  | nil => intro s events m hm; exact absurd hm (List.not_mem_nil m)
  | cons m0 rest ih =>
    intro s events m hm happ
    rcases List.mem_cons.mp hm with hm | hm
    · subst hm
      simp only [applyDeltaLoop]
      rw [if_pos happ]
      refine Nat.le_trans ?_ (loop_max_mono ..)
      rw [setVVI_max]
      exact Nat.le_max_left ..
    · by_cases h0 : isKeyValueApplicable m0 M s.last_gc_version = true
      · simp only [applyDeltaLoop]
        rw [if_pos h0]
        refine ih _ _ m hm ?_
        rw [setVVI_last_gc]
        exact happ
      · simp only [applyDeltaLoop]
        rw [if_neg h0]
        exact ih s events m hm happ

/-- After running the apply loop from a state whose max_version is the
captured currentMaxVersion, no mutation of the processed list is applicable
against the resulting state. -/
theorem loop_kills_applicability (now : Nat) (kvs : List KeyValueMutation) (s : NodeState)
    (events : List KeyChangeEvent) (m : KeyValueMutation) (hm : m ∈ kvs) :
    isKeyValueApplicable m
      (applyDeltaLoop s now s.max_version kvs events).1.max_version
      (applyDeltaLoop s now s.max_version kvs events).1.last_gc_version = false := by
  by_cases happ : isKeyValueApplicable m s.max_version s.last_gc_version = true
  · exact applicable_false_of_le _ _ _ (loop_applied_version_le now s.max_version kvs s events m hm happ)
  · rcases (applicable_false_iff m s.max_version s.last_gc_version).mp
      (Bool.not_eq_true _ ▸ happ) with hle | ⟨hsched, hgc⟩
    · exact applicable_false_of_le _ _ _ (Nat.le_trans hle (loop_max_mono ..))
    · rw [applicable_false_iff]
      right
      rw [loop_last_gc]
      exact ⟨hsched, hgc⟩

/-- When no mutation is applicable, the apply loop is the identity. -/
theorem loop_no_op (now M : Nat) :
    ∀ (kvs : List KeyValueMutation) (s : NodeState) (events : List KeyChangeEvent),
      (∀ m ∈ kvs, isKeyValueApplicable m M s.last_gc_version = false) →
      applyDeltaLoop s now M kvs events = (s, events) := by
  intro kvs
  induction kvs with
  | nil => intro s events _; rfl
  | cons m rest ih =>
    intro s events h
    have hm := h m (List.mem_cons_self ..)
    have hm2 : ¬ isKeyValueApplicable m M s.last_gc_version = true := by
      rw [hm]; exact Bool.false_ne_true
    simp only [applyDeltaLoop]
    rw [if_neg hm2]
    exact ih s events (fun x hx => h x (List.mem_cons_of_mem _ hx))

/-- When prepare_apply_delta rejects a delta, the state is returned
unchanged. -/
theorem prepare_false_snd (s : NodeState) (d : NodeDelta)
    (h : (prepareApplyDelta s d).1 = false) : (prepareApplyDelta s d).2 = s := by
  unfold prepareApplyDelta at *
  by_cases h1 : s.max_version < d.from_version_excluded
  · simp [h1]
  · by_cases h2 : d.last_gc_version < s.max_version
    · simp [h1, h2] at h
    · by_cases h3 : d.last_gc_version ≤ s.last_gc_version
      · simp [h1, h2, h3] at h
      · cases hdmv : d.deltaMaxVersion with
        | none => simp [h1, h2, h3, hdmv]
        | some dmv =>
          by_cases h4 : lexLe (d.last_gc_version, dmv) (s.last_gc_version, s.max_version) = true
          · simp [h1, h2, h3, hdmv, h4]
          · simp [h1, h2, h3, hdmv, h4] at h

/-- When the delta is not from the future and one of the two easy conditions
holds, prepare_apply_delta accepts without touching the state. -/
theorem prepare_true_easy (s : NodeState) (d : NodeDelta)
    (hf : ¬ s.max_version < d.from_version_excluded)
    (hc : d.last_gc_version < s.max_version ∨ d.last_gc_version ≤ s.last_gc_version) :
    prepareApplyDelta s d = (true, s) := by
  unfold prepareApplyDelta
  rcases hc with hc | hc
  · simp [hf, hc]
  · by_cases h2 : d.last_gc_version < s.max_version
    · simp [hf, h2]
    · simp [hf, h2, hc]

/-- When prepare_apply_delta accepts, either it accepted without a reset
(and one of the easy conditions holds), or it reset the state and the
resulting last_gc_version is the delta's. -/
theorem prepare_true_branches (s : NodeState) (d : NodeDelta)
    (h : (prepareApplyDelta s d).1 = true) :
    ((prepareApplyDelta s d).2 = s ∧
      (d.last_gc_version < s.max_version ∨ d.last_gc_version ≤ s.last_gc_version)) ∨
    (prepareApplyDelta s d).2.last_gc_version = d.last_gc_version := by
  unfold prepareApplyDelta at *
  by_cases h1 : s.max_version < d.from_version_excluded
  · simp [h1] at h
  · by_cases h2 : d.last_gc_version < s.max_version
    · left
      simp [h1, h2]
    · by_cases h3 : d.last_gc_version ≤ s.last_gc_version
      · left
        simp [h1, h2, h3]
      · cases hdmv : d.deltaMaxVersion with
        | none => simp [h1, h2, h3, hdmv] at h
        | some dmv =>
          by_cases h4 : lexLe (d.last_gc_version, dmv) (s.last_gc_version, s.max_version) = true
          · simp [h1, h2, h3, hdmv, h4] at h
          · right
            cases hmv : d.max_version <;>
              by_cases h5 : d.key_values.isEmpty <;>
                simp [h1, h2, h3, hdmv, h4, hmv, h5, NodeState.newNode]

/-- A delta coming from the future is rejected outright. -/
theorem prepare_future_false (s : NodeState) (d : NodeDelta)
    (h : s.max_version < d.from_version_excluded) :
    prepareApplyDelta s d = (false, s) := by
  unfold prepareApplyDelta
  simp [h]

/-- Unconditional application of a list of KV mutations through the internal
setter, appending one KeyChangeEvent per mutation the setter reports as an
update. This is the reference form the apply loop is compared against. -/
def applyMutationsUnconditionally (s : NodeState) (now : Nat) :
    List KeyValueMutation → List KeyChangeEvent → NodeState × List KeyChangeEvent
  | [], events => (s, events)
  | m :: rest, events =>
    let r := setVersionedValueInternal s m.key
      { value := m.value, version := m.version, status := m.status.intoStatus now }
    let events1 :=
      if r.2 then events ++ [{ key := m.key, value := m.value, node := r.1.chitchat_id }]
      else events
    applyMutationsUnconditionally r.1 now rest events1

/-- The apply loop is exactly the unconditional application of the mutations
that pass is_key_value_applicable against the max_version captured before the
loop and the (loop-invariant) last_gc_version. -/
theorem loop_eq_filter (now M : Nat) :
    ∀ (kvs : List KeyValueMutation) (s : NodeState) (events : List KeyChangeEvent),
      applyDeltaLoop s now M kvs events =
        applyMutationsUnconditionally s now
          (kvs.filter (fun m => isKeyValueApplicable m M s.last_gc_version)) events := by
  intro kvs
  induction kvs with
  | nil => intro s events; rfl
  | cons m rest ih =>
    intro s events
    by_cases h : isKeyValueApplicable m M s.last_gc_version = true
    · rw [List.filter_cons, if_pos h]
      simp only [applyDeltaLoop, applyMutationsUnconditionally]
      rw [if_pos h, ih]
      simp only [setVVI_last_gc]
    · rw [List.filter_cons, if_neg h]
      simp only [applyDeltaLoop]
      rw [if_neg h]
      exact ih s events

/-- C2: after a successful preparation step, apply_delta is exactly the
unconditional application of those KV mutations m with m.version greater
than the max_version captured once before the loop and, when m's status
mutation is tombstone-producing, m.version greater than the node's
last_gc_version; the unconditional application appends exactly one
KeyChangeEvent per mutation for which the internal setter reports an update,
and the setter reports an update iff the new status is not Deleted and the
version exceeds any existing entry's version. -/
theorem apply_delta_installs_applicable (s : NodeState) (d : NodeDelta) (now : Nat)
    (events : List KeyChangeEvent)
    (h : (prepareApplyDelta s d).1 = true) :
    applyDelta s d now events =
      applyMutationsUnconditionally (prepareApplyDelta s d).2 now
        (d.key_values.filter (fun m =>
          isKeyValueApplicable m (prepareApplyDelta s d).2.max_version
            (prepareApplyDelta s d).2.last_gc_version)) events ∧
    ∀ (s2 : NodeState) (key : String) (vv : VersionedValue),
      (setVersionedValueInternal s2 key vv).2 = true ↔
        (vv.isDeleted = false ∧ ∀ w, kvGet s2.key_values key = some w → w.version < vv.version) := by
  constructor
  · simp only [applyDelta]
    rw [if_pos h]
    exact loop_eq_filter ..
  · intro s2 key vv
    cases hk : kvGet s2.key_values key with
    | none => simp [setVersionedValueInternal, hk]
    | some occ =>
      by_cases hv : vv.version ≤ occ.version
      · simp only [setVersionedValueInternal, hk]
        rw [if_pos hv]
        constructor
        · intro hfalse
          exact absurd hfalse (by simp)
        · rintro ⟨-, hall⟩
          have := hall occ rfl
          omega
      · simp only [setVersionedValueInternal, hk]
        rw [if_neg hv]
        constructor
        · intro htrue
          refine ⟨by simpa using htrue, ?_⟩
          rintro w hw
          cases hw
          omega
        · rintro ⟨hdel, -⟩
          simp [hdel]

/-- Concrete NodeState used by the C2 witness (mirrors
test_node_apply_delta_simple in state.rs). -/
def wStateC2 : NodeState :=
  { chitchat_id := cidA
    heartbeat := 1
    key_values := [("key_a", { value := "val_a", version := 1, status := .set }),
                   ("key_b", { value := "val_a", version := 2, status := .set })]
    max_version := 2
    last_gc_version := 0 }

/-- Concrete NodeDelta used by the C2 witness. -/
def wDeltaC2 : NodeDelta :=
  { chitchat_id := cidA
    from_version_excluded := 2
    last_gc_version := 0
    max_version := none
    key_values := [{ key := "key_c", value := "val_c", version := 4, status := .set },
                   { key := "key_b", value := "val_b2", version := 3, status := .set }] }

/-- Closed witness for C2 at a concrete state and delta. -/
theorem apply_delta_installs_applicable_witness :
    applyDelta wStateC2 wDeltaC2 9 [] =
      applyMutationsUnconditionally (prepareApplyDelta wStateC2 wDeltaC2).2 9
        (wDeltaC2.key_values.filter (fun m =>
          isKeyValueApplicable m (prepareApplyDelta wStateC2 wDeltaC2).2.max_version
            (prepareApplyDelta wStateC2 wDeltaC2).2.last_gc_version)) [] :=
  (apply_delta_installs_applicable wStateC2 wDeltaC2 9 [] (by decide)).1

/-- C3: a delta with from_version_excluded strictly above our max_version is
ignored completely: the NodeState is returned unchanged and no
KeyChangeEvent is appended. -/
theorem apply_delta_from_future_ignored (s : NodeState) (d : NodeDelta) (now : Nat)
    (events : List KeyChangeEvent)
    (h : s.max_version < d.from_version_excluded) :
    applyDelta s d now events = (s, events) := by
  have hp := prepare_future_false s d h
  simp [applyDelta, hp]

/-- Closed witness for C3 (mirrors test_node_skip_delta_from_the_future in
state.rs). -/
theorem apply_delta_from_future_ignored_witness :
    applyDelta
        { chitchat_id := cidA, heartbeat := 0,
          key_values := [("key_a", { value := "val_a", version := 5, status := .set })],
          max_version := 5, last_gc_version := 0 }
        { chitchat_id := cidA, from_version_excluded := 6, last_gc_version := 0,
          max_version := none,
          key_values := [{ key := "key_a", value := "new_val", version := 7, status := .set }] }
        3 [] =
      ({ chitchat_id := cidA, heartbeat := 0,
         key_values := [("key_a", { value := "val_a", version := 5, status := .set })],
         max_version := 5, last_gc_version := 0 }, []) :=
  apply_delta_from_future_ignored _ _ 3 [] (by decide)

/-- C4: applying the same node delta twice in a row yields the same
NodeState as applying it once; the NodeState after the second application is
identical to the NodeState after the first. -/
theorem apply_delta_idempotent (s : NodeState) (d : NodeDelta) (now : Nat) :
    (applyDelta (applyDelta s d now []).1 d now []).1 = (applyDelta s d now []).1 := by
  by_cases h1 : (prepareApplyDelta s d).1 = true
  · have hfst : (applyDelta s d now []).1 =
        (applyDeltaLoop (prepareApplyDelta s d).2 now (prepareApplyDelta s d).2.max_version
          d.key_values []).1 := by
      simp [applyDelta, h1]
    rw [hfst]
    have hSgc : (applyDeltaLoop (prepareApplyDelta s d).2 now
        (prepareApplyDelta s d).2.max_version d.key_values []).1.last_gc_version =
        (prepareApplyDelta s d).2.last_gc_version := loop_last_gc ..
    have hSmax : (prepareApplyDelta s d).2.max_version ≤
        (applyDeltaLoop (prepareApplyDelta s d).2 now
          (prepareApplyDelta s d).2.max_version d.key_values []).1.max_version :=
      loop_max_mono ..
    generalize hS : (applyDeltaLoop (prepareApplyDelta s d).2 now
        (prepareApplyDelta s d).2.max_version d.key_values []).1 = S at *
    have hcond : d.last_gc_version < S.max_version ∨ d.last_gc_version ≤ S.last_gc_version := by
      rcases prepare_true_branches s d h1 with ⟨heq, hc⟩ | hgc
      · rcases hc with hc | hc
        · left
          have hPmax : (prepareApplyDelta s d).2.max_version = s.max_version := by rw [heq]
          omega
        · right
          have hPgc : (prepareApplyDelta s d).2.last_gc_version = s.last_gc_version := by rw [heq]
          omega
      · right
        omega
    by_cases h2 : (prepareApplyDelta S d).1 = true
    · have hf : ¬ S.max_version < d.from_version_excluded := by
        intro hcontra
        rw [prepare_future_false S d hcontra] at h2
        exact absurd h2 (by simp)
      have hp2 := prepare_true_easy S d hf hcond
      have hsnd : applyDelta S d now [] =
          applyDeltaLoop S now S.max_version d.key_values [] := by
        simp [applyDelta, hp2]
      rw [hsnd]
      have hkill : ∀ m ∈ d.key_values,
          isKeyValueApplicable m S.max_version S.last_gc_version = false := by
        intro m hm
        have := loop_kills_applicability now d.key_values (prepareApplyDelta s d).2 [] m hm
        rw [hS] at this
        exact this
      rw [loop_no_op now S.max_version d.key_values S [] hkill]
    · have hfalse : (prepareApplyDelta S d).1 = false := by
        cases hb : (prepareApplyDelta S d).1 with
        | false => rfl
        | true => exact absurd hb h2
      have hsnd : applyDelta S d now [] = ((prepareApplyDelta S d).2, []) := by
        simp [applyDelta, hfalse]
      rw [hsnd]
      exact prepare_false_snd S d hfalse
  · have hfalse : (prepareApplyDelta s d).1 = false := by
      cases hb : (prepareApplyDelta s d).1 with
      | false => rfl
      | true => exact absurd hb h1
    have hfst : (applyDelta s d now []).1 = s := by
      simp [applyDelta, hfalse, prepare_false_snd s d hfalse]
    rw [hfst]
    exact hfst

/-- NodeState::gc_keys_marked_for_deletion (state.rs lines 366-387): one pass
over the entries mirroring BTreeMap::retain together with the
max_deleted_version accumulator, then write back last_gc_version. -/
def gcKeysMarkedForDeletion (s : NodeState) (now grace_period : Nat) : NodeState :=
  let r := s.key_values.foldl
    (fun (acc : List (String × VersionedValue) × Nat) kv =>
      match kv.2.status.timeOfStartScheduledForDeletion with
      | none => (acc.1 ++ [kv], acc.2)
      | some deleted_start_instant =>
        if now < deleted_start_instant + grace_period then (acc.1 ++ [kv], acc.2)
        else (acc.1, max kv.2.version acc.2))
    ([], s.last_gc_version)
  { s with key_values := r.1, last_gc_version := r.2 }

/-- An entry is reclaimed by the GC iff its status carries a
scheduled-for-deletion start time t with t + grace at most now. -/
def gcRemoves (now grace_period : Nat) (vv : VersionedValue) : Bool :=
  match vv.status.timeOfStartScheduledForDeletion with
  | none => false
  | some t => decide (t + grace_period ≤ now)

/-- Auxiliary: characterization of the GC fold for any accumulator. -/
theorem gc_fold_spec (now grace_period : Nat) :
    ∀ (l : List (String × VersionedValue)) (acc : List (String × VersionedValue)) (g : Nat),
      (l.foldl
        (fun (acc : List (String × VersionedValue) × Nat) kv =>
          match kv.2.status.timeOfStartScheduledForDeletion with
          | none => (acc.1 ++ [kv], acc.2)
          | some deleted_start_instant =>
            if now < deleted_start_instant + grace_period then (acc.1 ++ [kv], acc.2)
            else (acc.1, max kv.2.version acc.2))
        (acc, g)) =
      (acc ++ l.filter (fun kv => !gcRemoves now grace_period kv.2),
       max g (((l.filter (fun kv => gcRemoves now grace_period kv.2)).map
          (fun kv => kv.2.version)).foldr max 0)) := by
  intro l
  induction l with
  | nil =>
    intro acc g
    simp
  | cons kv rest ih =>
    intro acc g
    by_cases hr : gcRemoves now grace_period kv.2 = true
    · have hstep : ∀ (a : List (String × VersionedValue)) (g0 : Nat),
          (match kv.2.status.timeOfStartScheduledForDeletion with
            | none => (a ++ [kv], g0)
            | some deleted_start_instant =>
              if now < deleted_start_instant + grace_period then (a ++ [kv], g0)
              else (a, max kv.2.version g0)) = (a, max kv.2.version g0) := by
        intro a g0
        unfold gcRemoves at hr
        cases ht : kv.2.status.timeOfStartScheduledForDeletion with
        | none => rw [ht] at hr; exact absurd hr (by simp)
        | some t =>
          rw [ht] at hr
          have : ¬ now < t + grace_period := by
            simp only [decide_eq_true_eq] at hr
            omega
          simp [this]
      rw [List.foldl_cons, hstep, ih, List.filter_cons, List.filter_cons, hr]
      simp only [Bool.not_true, Bool.false_eq_true, if_false, eq_self_iff_true, if_true,
        List.map_cons, List.foldr_cons, Prod.mk.injEq, true_and]
      omega
    · have hrf : gcRemoves now grace_period kv.2 = false := by
        cases hb : gcRemoves now grace_period kv.2 with
        | false => rfl
        | true => exact absurd hb hr
      have hstep : ∀ (a : List (String × VersionedValue)) (g0 : Nat),
          (match kv.2.status.timeOfStartScheduledForDeletion with
            | none => (a ++ [kv], g0)
            | some deleted_start_instant =>
              if now < deleted_start_instant + grace_period then (a ++ [kv], g0)
              else (a, max kv.2.version g0)) = (a ++ [kv], g0) := by
        intro a g0
        unfold gcRemoves at hrf
        cases ht : kv.2.status.timeOfStartScheduledForDeletion with
        | none => simp
        | some t =>
          rw [ht] at hrf
          have : now < t + grace_period := by
            simp only [decide_eq_false_iff_not] at hrf
            omega
          simp [this]
      rw [List.foldl_cons, hstep, ih, List.filter_cons, List.filter_cons, hrf]
      simp

/-- C7: gc_keys_marked_for_deletion removes exactly the entries whose status
carries a scheduled-for-deletion start time t with now at least t + grace;
all other entries are kept unchanged (value, version and status included);
the new last_gc_version is the max of its previous value and the versions of
the removed entries; heartbeat, max_version and identity are untouched. -/
theorem gc_keys_marked_for_deletion_spec (s : NodeState) (now grace_period : Nat) :
    (gcKeysMarkedForDeletion s now grace_period).key_values =
        s.key_values.filter (fun kv => !gcRemoves now grace_period kv.2) ∧
    (gcKeysMarkedForDeletion s now grace_period).last_gc_version =
        max s.last_gc_version
          (((s.key_values.filter (fun kv => gcRemoves now grace_period kv.2)).map
              (fun kv => kv.2.version)).foldr max 0) ∧
    (gcKeysMarkedForDeletion s now grace_period).heartbeat = s.heartbeat ∧
    (gcKeysMarkedForDeletion s now grace_period).max_version = s.max_version ∧
    (gcKeysMarkedForDeletion s now grace_period).chitchat_id = s.chitchat_id := by
  unfold gcKeysMarkedForDeletion
  rw [gc_fold_spec now grace_period s.key_values [] s.last_gc_version]
  simp

/-- NodeState::num_key_values (state.rs): number of entries excluding keys
marked for deletion. -/
def NodeState.numKeyValues (s : NodeState) : Nat :=
  (s.key_values.filter (fun kv => !kv.2.isDeleted)).length

/-- NodeState::stale_key_values (state.rs lines 401-408): all entries,
tombstones included, with version strictly greater than the floor version. -/
def NodeState.staleKeyValues (s : NodeState) (floor_version : Nat) :
    List (String × VersionedValue) :=
  s.key_values.filter (fun kv => decide (floor_version < kv.2.version))

/-- Staleness score of a candidate node (state.rs lines 620-625). -/
structure Staleness where
  is_unknown : Bool
  max_version : Nat
  num_stale_key_values : Nat
deriving DecidableEq

/-- Ord for Staleness (state.rs lines 629-648): unknown nodes first; among
unknowns the lowest max_version wins (reversed compare); among knowns the
highest number of stale records wins. -/
def stalenessCmp (a b : Staleness) : Ordering :=
  (compare a.is_unknown b.is_unknown).then
    (if a.is_unknown then (compare a.max_version b.max_version).swap
     else compare a.num_stale_key_values b.num_stale_key_values)

/-- staleness_score (state.rs lines 673-688). -/
def stalenessScore (node_state : NodeState) (floor_version : Nat) : Option Staleness :=
  if node_state.max_version ≤ floor_version then none
  else
    some
      { is_unknown := floor_version == 0
        max_version := node_state.max_version
        num_stale_key_values :=
          if floor_version == 0 then node_state.numKeyValues
          else (node_state.staleKeyValues floor_version).length }

/-- StaleNode (state.rs lines 732-736). -/
structure StaleNode where
  chitchat_id : ChitchatId
  node_state : NodeState
  from_version_excluded : Nat
deriving DecidableEq

/-- The staleness under which an offered StaleNode is keyed in
SortedStaleNodes (the payload of its staleness_score, which is some for
every offered node). -/
def StaleNode.staleness (e : StaleNode) : Staleness :=
  { is_unknown := e.from_version_excluded == 0
    max_version := e.node_state.max_version
    num_stale_key_values :=
      if e.from_version_excluded == 0 then e.node_state.numKeyValues
      else (e.node_state.staleKeyValues e.from_version_excluded).length }

/-- Insertion into a list sorted by ascending version. -/
def insertByVersion (kv : String × VersionedValue) :
    List (String × VersionedValue) → List (String × VersionedValue)
  | [] => [kv]
  | x :: xs =>
    if kv.2.version ≤ x.2.version then kv :: x :: xs else x :: insertByVersion kv xs

/-- Sort by ascending version (insertion sort; the source uses an unstable
sort, so the relative order of equal versions is unspecified there and any
sort is a faithful model). -/
def sortByVersion : List (String × VersionedValue) → List (String × VersionedValue)
  | [] => []
  | x :: xs => insertByVersion x (sortByVersion xs)

/-- Stale key-values of a stale node in ascending version order
(StaleNode::stale_key_values, state.rs lines 738-745). -/
def StaleNode.sortedStaleKvs (e : StaleNode) : List (String × VersionedValue) :=
  sortByVersion (e.node_state.staleKeyValues e.from_version_excluded)

/-- Digest entry of the richer digest variant consumed by state.rs.
Modelled from the spec §3 "Digest": (heartbeat, last_gc_version,
max_version). The digest.rs under src/ is the older two-field variant; the
richer one read by compute_partial_delta_respecting_mtu is not under src/. -/
structure NodeDigestV2 where
  heartbeat : Nat
  last_gc_version : Nat
  max_version : Nat
deriving DecidableEq

/-- Association-list lookup standing for the digest BTreeMap. -/
def digestGet : List (ChitchatId × NodeDigestV2) → ChitchatId → Option NodeDigestV2
  | [], _ => none
  | (cid0, nd) :: rest, cid => if cid0 = cid then some nd else digestGet rest cid

/-- The (last_gc_version, max_version) pair the delta computation reads from
the digest for a peer, or (0, 0) when the peer is absent (state.rs lines
555-559). -/
def digestPair (digest : List (ChitchatId × NodeDigestV2)) (cid : ChitchatId) : Nat × Nat :=
  match digestGet digest cid with
  | some nd => (nd.last_gc_version, nd.max_version)
  | none => (0, 0)

/-- The from_version_excluded offered for a peer (state.rs lines 567-580):
0 when a reset is needed (digest behind our last_gc_version on both
components), the digest max_version otherwise. -/
def offerFve (digest : List (ChitchatId × NodeDigestV2)) (cid : ChitchatId) (ns : NodeState) :
    Nat :=
  if decide ((digestPair digest cid).1 < ns.last_gc_version) &&
     decide ((digestPair digest cid).2 < ns.last_gc_version)
  then 0 else (digestPair digest cid).2

/-- Offer-collection stage of compute_partial_delta_respecting_mtu (state.rs
lines 548-583) combined with SortedStaleNodes::offer (lines 690-713):
returns, in node_states order, the offered stale nodes with their
from_version_excluded. -/
def computeOffers :
    List (ChitchatId × NodeState) → List (ChitchatId × NodeDigestV2) → List ChitchatId →
      List StaleNode
  | [], _, _ => []
  | (cid, ns) :: rest, digest, excluded =>
    if cid ∈ excluded then computeOffers rest digest excluded
    else if ns.max_version ≤ (digestPair digest cid).2 then computeOffers rest digest excluded
    else
      match stalenessScore ns (offerFve digest cid ns) with
      | none => computeOffers rest digest excluded
      | some _ =>
        { chitchat_id := cid, node_state := ns,
          from_version_excluded := offerFve digest cid ns } ::
          computeOffers rest digest excluded

/-- Characterization of the possible outputs of SortedStaleNodes::into_iter
(state.rs lines 715-727): a permutation of the offered nodes sorted in
decreasing order of staleness priority; nodes whose stalenesses compare
equal (one BTreeMap bucket) may come out in any relative order, which is the
tie-breaking RNG shuffle. -/
def validGossipOrder (offers l : List StaleNode) : Prop :=
  l.Perm offers ∧
    l.Pairwise (fun a b => stalenessCmp a.staleness b.staleness ≠ Ordering.lt)

/-- One node entry of a built delta, paired with the stale node it was
emitted for. Modelled from the spec §3 "Delta": delta.rs is not under src/.
The wire entry consists of the stale node's chitchat_id, last_gc_version and
from_version_excluded plus the kvs and optional standalone max_version. -/
structure DeltaBuiltEntry where
  stale : StaleNode
  kvs : List (String × VersionedValue)
  max_version_op : Option Nat
deriving DecidableEq

/-- KV-adding loop of the MTU-bounded serializer: returns the kvs added, the
new used budget and whether the mtu was hit. Modelled from the spec §4.3
(try_add_kv); delta.rs is not under src/; the byte cost of an operation is a
parameter, so the theorems hold for every cost model. -/
def addKvs (kvCost : String → VersionedValue → Nat) (mtu : Nat) :
    List (String × VersionedValue) → Nat → List (String × VersionedValue) × Nat × Bool
  | [], used => ([], used, false)
  | kv :: rest, used =>
    if mtu < used + kvCost kv.1 kv.2 then ([], used, true)
    else
      let r := addKvs kvCost mtu rest (used + kvCost kv.1 kv.2)
      (kv :: r.1, r.2.1, r.2.2)

/-- MTU-bounded serialization loop of compute_partial_delta_respecting_mtu
(state.rs lines 584-612) over a DeltaSerializer. Modelled from the spec
§4.3: delta.rs is not under src/. A failing try_add_node stops everything; a
failing try_add_kv emits the current partial delta immediately;
try_set_max_version is attempted when a node contributed no KV and its
failure is ignored. -/
def buildDelta (nodeCost : StaleNode → Nat) (kvCost : String → VersionedValue → Nat)
    (mvCost mtu : Nat) : List StaleNode → Nat → List DeltaBuiltEntry
  | [], _ => []
  | e :: rest, used =>
    if mtu < used + nodeCost e then []
    else
      let r := addKvs kvCost mtu e.sortedStaleKvs (used + nodeCost e)
      if r.2.2 then [{ stale := e, kvs := r.1, max_version_op := none }]
      else if r.1.isEmpty then
        if r.2.1 + mvCost ≤ mtu then
          { stale := e, kvs := [], max_version_op := some e.node_state.max_version } ::
            buildDelta nodeCost kvCost mvCost mtu rest (r.2.1 + mvCost)
        else
          { stale := e, kvs := [], max_version_op := none } ::
            buildDelta nodeCost kvCost mvCost mtu rest r.2.1
      else
        { stale := e, kvs := r.1, max_version_op := none } ::
          buildDelta nodeCost kvCost mvCost mtu rest r.2.1

/-- The stale nodes of a built delta form a sublist of the serialization
order. -/
theorem buildDelta_stales_sublist (nodeCost : StaleNode → Nat)
    (kvCost : String → VersionedValue → Nat) (mvCost mtu : Nat) :
    ∀ (l : List StaleNode) (used : Nat),
      ((buildDelta nodeCost kvCost mvCost mtu l used).map (fun e => e.stale)).Sublist l := by
  intro l
  induction l with
  | nil => intro used; simp [buildDelta]
  | cons e rest ih =>
    intro used
    simp only [buildDelta]
    by_cases h1 : mtu < used + nodeCost e
    · rw [if_pos h1]
      simp
    · rw [if_neg h1]
      by_cases h2 : (addKvs kvCost mtu e.sortedStaleKvs (used + nodeCost e)).2.2 = true
      · rw [if_pos h2]
        simp
      · rw [if_neg h2]
        by_cases h3 : (addKvs kvCost mtu e.sortedStaleKvs (used + nodeCost e)).1.isEmpty = true
        · rw [if_pos h3]
          by_cases h4 :
              (addKvs kvCost mtu e.sortedStaleKvs (used + nodeCost e)).2.1 + mvCost ≤ mtu
          · rw [if_pos h4]
            simpa using List.Sublist.cons₂ e (ih _)
          · rw [if_neg h4]
            simpa using List.Sublist.cons₂ e (ih _)
        · rw [if_neg h3]
          simpa using List.Sublist.cons₂ e (ih _)

/-- Consequences of "not strictly less stale" between two stale nodes, read
off the Staleness ordering. -/
theorem staleness_nonlt_consequences (A B : StaleNode)
    (h : stalenessCmp A.staleness B.staleness ≠ Ordering.lt) :
    (¬ (A.from_version_excluded ≠ 0 ∧ B.from_version_excluded = 0)) ∧
    (A.from_version_excluded = 0 → B.from_version_excluded = 0 →
      A.node_state.max_version ≤ B.node_state.max_version) ∧
    (A.from_version_excluded ≠ 0 → B.from_version_excluded ≠ 0 →
      B.staleness.num_stale_key_values ≤ A.staleness.num_stale_key_values) := by
  by_cases hA0 : A.from_version_excluded = 0 <;> by_cases hB0 : B.from_version_excluded = 0
  · -- both unknown
    have ha : A.staleness.is_unknown = true := by simp [StaleNode.staleness, hA0]
    have hb : B.staleness.is_unknown = true := by simp [StaleNode.staleness, hB0]
    refine ⟨by tauto, fun _ _ => ?_, by tauto⟩
    unfold stalenessCmp at h
    rw [ha, hb] at h
    have hcmp : compare true true = Ordering.eq := by decide
    rw [hcmp] at h
    simp only [Ordering.then, if_true] at h
    have hmax : A.staleness.max_version = A.node_state.max_version := rfl
    have hmax2 : B.staleness.max_version = B.node_state.max_version := rfl
    cases hc : compare A.staleness.max_version B.staleness.max_version with
    | lt =>
      have := Nat.compare_eq_lt.mp hc
      rw [hmax, hmax2] at this
      omega
    | eq =>
      have := Nat.compare_eq_eq.mp hc
      rw [hmax, hmax2] at this
      omega
    | gt =>
      rw [hc] at h
      exact absurd rfl h
  · -- A unknown, B known: every conjunct is trivial or vacuous
    refine ⟨by tauto, fun _ hB => absurd hB hB0, fun hA _ => absurd hA0 hA⟩
  · -- A known, B unknown: contradicts the ordering hypothesis
    exfalso
    apply h
    have ha : A.staleness.is_unknown = false := by simp [StaleNode.staleness, hA0]
    have hb : B.staleness.is_unknown = true := by simp [StaleNode.staleness, hB0]
    unfold stalenessCmp
    rw [ha, hb]
    have hcmp : compare false true = Ordering.lt := by decide
    rw [hcmp]
    rfl
  · -- both known
    have ha : A.staleness.is_unknown = false := by simp [StaleNode.staleness, hA0]
    have hb : B.staleness.is_unknown = false := by simp [StaleNode.staleness, hB0]
    refine ⟨by tauto, fun hA _ => absurd hA hA0, fun _ _ => ?_⟩
    unfold stalenessCmp at h
    rw [ha, hb] at h
    have hcmp : compare false false = Ordering.eq := by decide
    rw [hcmp] at h
    simp only [Ordering.then, Bool.false_eq_true, if_false] at h
    cases hc : compare A.staleness.num_stale_key_values B.staleness.num_stale_key_values with
    | lt => rw [hc] at h; exact absurd rfl h
    | eq => have := Nat.compare_eq_eq.mp hc; omega
    | gt => have := Nat.compare_eq_gt.mp hc; omega

/-- C6: in a delta built from any valid into_iter order of the offered stale
nodes (any tie-breaking RNG) and any serializer cost model, peers appear in
decreasing staleness priority: no known peer (from_version_excluded > 0)
precedes an unknown one (from_version_excluded = 0); among unknown peers the
earlier one has the lower max_version; among known peers the earlier one has
at least as many stale key-values; and in particular two known peers A and B
both present in the delta with A carrying strictly more stale key-values
have A serialized before B. -/
theorem delta_nodes_priority_order (node_states : List (ChitchatId × NodeState))
    (digest : List (ChitchatId × NodeDigestV2)) (excluded : List ChitchatId)
    (l : List StaleNode) (nodeCost : StaleNode → Nat)
    (kvCost : String → VersionedValue → Nat) (mvCost mtu : Nat)
    (delta : List DeltaBuiltEntry)
    (hdelta : delta = buildDelta nodeCost kvCost mvCost mtu l 0)
    (h : validGossipOrder (computeOffers node_states digest excluded) l) :
    (∀ i j : Fin delta.length, (i : Nat) < (j : Nat) →
      (¬ ((delta.get i).stale.from_version_excluded ≠ 0 ∧
          (delta.get j).stale.from_version_excluded = 0)) ∧
      ((delta.get i).stale.from_version_excluded = 0 →
        (delta.get j).stale.from_version_excluded = 0 →
        (delta.get i).stale.node_state.max_version ≤
          (delta.get j).stale.node_state.max_version) ∧
      ((delta.get i).stale.from_version_excluded ≠ 0 →
        (delta.get j).stale.from_version_excluded ≠ 0 →
        (delta.get j).stale.staleness.num_stale_key_values ≤
          (delta.get i).stale.staleness.num_stale_key_values)) ∧
    (∀ i j : Fin delta.length, (i : Nat) ≠ (j : Nat) →
      (delta.get i).stale.from_version_excluded ≠ 0 →
      (delta.get j).stale.from_version_excluded ≠ 0 →
      (delta.get j).stale.staleness.num_stale_key_values <
        (delta.get i).stale.staleness.num_stale_key_values →
      (i : Nat) < (j : Nat)) := by
  have hpw : delta.Pairwise
      (fun x y => stalenessCmp x.stale.staleness y.stale.staleness ≠ Ordering.lt) := by
    subst hdelta
    have hsub := buildDelta_stales_sublist nodeCost kvCost mvCost mtu l 0
    have hmap := List.Pairwise.sublist hsub h.2
    exact List.pairwise_map.mp hmap
  have hmain : ∀ i j : Fin delta.length, (i : Nat) < (j : Nat) →
      (¬ ((delta.get i).stale.from_version_excluded ≠ 0 ∧
          (delta.get j).stale.from_version_excluded = 0)) ∧
      ((delta.get i).stale.from_version_excluded = 0 →
        (delta.get j).stale.from_version_excluded = 0 →
        (delta.get i).stale.node_state.max_version ≤
          (delta.get j).stale.node_state.max_version) ∧
      ((delta.get i).stale.from_version_excluded ≠ 0 →
        (delta.get j).stale.from_version_excluded ≠ 0 →
        (delta.get j).stale.staleness.num_stale_key_values ≤
          (delta.get i).stale.staleness.num_stale_key_values) := by
    intro i j hij
    have hR := List.pairwise_iff_get.mp hpw i j hij
    exact staleness_nonlt_consequences _ _ hR
  refine ⟨hmain, ?_⟩
  intro i j hne hA hB hnum
  rcases Nat.lt_trichotomy (i : Nat) (j : Nat) with hlt | heq | hgt
  · exact hlt
  · exact absurd heq hne
  · have := (hmain j i hgt).2.2 hB hA
    omega

/-- Concrete node state with three key-values, for the C6 witness. -/
def wNsA : NodeState :=
  { chitchat_id := cidA, heartbeat := 0
    key_values := [("a", { value := "1", version := 1, status := .set }),
                   ("b", { value := "2", version := 2, status := .set }),
                   ("c", { value := "3", version := 3, status := .set })]
    max_version := 3, last_gc_version := 0 }

/-- Concrete node state with two key-values, for the C6 witness. -/
def wNsB : NodeState :=
  { chitchat_id := cidB, heartbeat := 0
    key_values := [("x", { value := "1", version := 1, status := .set }),
                   ("y", { value := "2", version := 2, status := .set })]
    max_version := 2, last_gc_version := 0 }

/-- Concrete cluster node list for the C6 witness. -/
def wStatesC6 : List (ChitchatId × NodeState) := [(cidA, wNsA), (cidB, wNsB)]

/-- Concrete digest for the C6 witness: both peers known at max_version 1. -/
def wDigestC6 : List (ChitchatId × NodeDigestV2) :=
  [(cidA, { heartbeat := 0, last_gc_version := 0, max_version := 1 }),
   (cidB, { heartbeat := 0, last_gc_version := 0, max_version := 1 })]

/-- Concrete serialization order for the C6 witness: the node with more
stale key-values first. -/
def wOrderC6 : List StaleNode :=
  [{ chitchat_id := cidA, node_state := wNsA, from_version_excluded := 1 },
   { chitchat_id := cidB, node_state := wNsB, from_version_excluded := 1 }]

/-- Concrete built delta for the C6 witness. -/
def wDeltaC6 : List DeltaBuiltEntry :=
  buildDelta (fun _ => 1) (fun _ _ => 1) 1 100 wOrderC6 0

/-- Closed witness for C6: in the concrete delta, the later known peer has
at most as many stale key-values as the earlier one. -/
theorem delta_nodes_priority_order_witness :
    (wDeltaC6.get ⟨1, by decide⟩).stale.staleness.num_stale_key_values ≤
      (wDeltaC6.get ⟨0, by decide⟩).stale.staleness.num_stale_key_values :=
  ((delta_nodes_priority_order wStatesC6 wDigestC6 [] wOrderC6 (fun _ => 1) (fun _ _ => 1) 1 100
      wDeltaC6 rfl ⟨by decide, by decide⟩).1 ⟨0, by decide⟩ ⟨1, by decide⟩
      (by decide)).2.2 (by decide) (by decide)

/-- Every offered stale node comes from a non-excluded entry of node_states
whose max_version strictly exceeds the digest max for that peer. -/
theorem mem_computeOffers :
    ∀ (states : List (ChitchatId × NodeState)) (digest : List (ChitchatId × NodeDigestV2))
      (excluded : List ChitchatId) (e : StaleNode),
      e ∈ computeOffers states digest excluded →
      (e.chitchat_id, e.node_state) ∈ states ∧ e.chitchat_id ∉ excluded ∧
        (digestPair digest e.chitchat_id).2 < e.node_state.max_version := by
  intro states
  induction states with
  | nil =>
    intro digest excluded e he
    simp [computeOffers] at he
  | cons hd rest ih =>
    intro digest excluded e he
    obtain ⟨cid, ns⟩ := hd
    simp only [computeOffers] at he
    by_cases h1 : cid ∈ excluded
    · rw [if_pos h1] at he
      obtain ⟨hm, hx, hlt⟩ := ih digest excluded e he
      exact ⟨List.mem_cons_of_mem _ hm, hx, hlt⟩
    · rw [if_neg h1] at he
      by_cases h2 : ns.max_version ≤ (digestPair digest cid).2
      · rw [if_pos h2] at he
        obtain ⟨hm, hx, hlt⟩ := ih digest excluded e he
        exact ⟨List.mem_cons_of_mem _ hm, hx, hlt⟩
      · rw [if_neg h2] at he
        cases hss : stalenessScore ns (offerFve digest cid ns) with
        | none =>
          rw [hss] at he
          obtain ⟨hm, hx, hlt⟩ := ih digest excluded e he
          exact ⟨List.mem_cons_of_mem _ hm, hx, hlt⟩
        | some st =>
          rw [hss] at he
          rcases List.mem_cons.mp he with he | he
          · subst he
            exact ⟨List.mem_cons_self .., h1,
              show (digestPair digest cid).2 < ns.max_version by omega⟩
          · obtain ⟨hm, hx, hlt⟩ := ih digest excluded e he
            exact ⟨List.mem_cons_of_mem _ hm, hx, hlt⟩

/-- A peer whose state is newer than the digest floor always has a defined
staleness score at its offered from_version_excluded. -/
theorem stalenessScore_offer_some (digest : List (ChitchatId × NodeDigestV2))
    (cid : ChitchatId) (ns : NodeState)
    (h : (digestPair digest cid).2 < ns.max_version) :
    ∃ st, stalenessScore ns (offerFve digest cid ns) = some st := by
  by_cases hc : (decide ((digestPair digest cid).1 < ns.last_gc_version) &&
      decide ((digestPair digest cid).2 < ns.last_gc_version)) = true
  · have hf : offerFve digest cid ns = 0 := by unfold offerFve; rw [if_pos hc]
    rw [hf]
    unfold stalenessScore
    have hn : ¬ ns.max_version ≤ 0 := by omega
    rw [if_neg hn]
    exact ⟨_, rfl⟩
  · have hf : offerFve digest cid ns = (digestPair digest cid).2 := by
      unfold offerFve; rw [if_neg hc]
    rw [hf]
    unfold stalenessScore
    have hn : ¬ ns.max_version ≤ (digestPair digest cid).2 := by omega
    rw [if_neg hn]
    exact ⟨_, rfl⟩

/-- The offered from_version_excluded, written with a propositional reset
condition. -/
theorem offerFve_eq (digest : List (ChitchatId × NodeDigestV2)) (cid : ChitchatId)
    (ns : NodeState) :
    offerFve digest cid ns =
      if (digestPair digest cid).1 < ns.last_gc_version ∧
         (digestPair digest cid).2 < ns.last_gc_version
      then 0 else (digestPair digest cid).2 := by
  unfold offerFve
  by_cases h1 : (digestPair digest cid).1 < ns.last_gc_version <;>
    by_cases h2 : (digestPair digest cid).2 < ns.last_gc_version <;>
      simp [h1, h2]

/-- In an association list with nodup keys, a key determines its value. -/
theorem nodup_keys_value_eq :
    ∀ (states : List (ChitchatId × NodeState)) (cid : ChitchatId) (a b : NodeState),
      (states.map Prod.fst).Nodup → (cid, a) ∈ states → (cid, b) ∈ states → a = b := by
  intro states
  induction states with
  | nil =>
    intro cid a b _ ha
    simp at ha
  | cons hd rest ih =>
    intro cid a b hnd ha hb
    obtain ⟨c0, n0⟩ := hd
    rw [List.map_cons] at hnd
    have hnotin : c0 ∉ rest.map Prod.fst := (List.nodup_cons.mp hnd).1
    have hnd1 : (rest.map Prod.fst).Nodup := (List.nodup_cons.mp hnd).2
    rcases List.mem_cons.mp ha with ha | ha <;> rcases List.mem_cons.mp hb with hb | hb
    · rw [Prod.mk.injEq] at ha hb
      rw [ha.2, hb.2]
    · rw [Prod.mk.injEq] at ha
      exfalso
      apply hnotin
      rw [← ha.1]
      exact List.mem_map_of_mem Prod.fst hb
    · rw [Prod.mk.injEq] at hb
      exfalso
      apply hnotin
      rw [← hb.1]
      exact List.mem_map_of_mem Prod.fst ha
    · exact ih cid a b hnd1 ha hb

/-- C5: for a peer not in the excluded set, with (digest_last_gc,
digest_max) = digestPair (the digest entry, or (0,0) when absent): when
node_state.max_version is at most digest_max the peer contributes no node
entry to any built delta (for every valid serialization order and every cost
model); otherwise it is offered with from_version_excluded = 0 exactly when
digest_last_gc < node_state.last_gc_version and digest_max <
node_state.last_gc_version, and with from_version_excluded = digest_max
otherwise. -/
theorem compute_delta_offer_spec (node_states : List (ChitchatId × NodeState))
    (digest : List (ChitchatId × NodeDigestV2)) (excluded : List ChitchatId)
    (cid : ChitchatId) (ns : NodeState)
    (hmem : (cid, ns) ∈ node_states)
    (hnodup : (node_states.map Prod.fst).Nodup)
    (hexcl : cid ∉ excluded) :
    (ns.max_version ≤ (digestPair digest cid).2 →
      ∀ (l : List StaleNode) (nodeCost : StaleNode → Nat)
        (kvCost : String → VersionedValue → Nat) (mvCost mtu used : Nat),
        validGossipOrder (computeOffers node_states digest excluded) l →
        cid ∉ (buildDelta nodeCost kvCost mvCost mtu l used).map
          (fun e => e.stale.chitchat_id)) ∧
    ((digestPair digest cid).2 < ns.max_version →
      ({ chitchat_id := cid, node_state := ns,
         from_version_excluded :=
           if (digestPair digest cid).1 < ns.last_gc_version ∧
              (digestPair digest cid).2 < ns.last_gc_version
           then 0 else (digestPair digest cid).2 } : StaleNode) ∈
        computeOffers node_states digest excluded) := by
  constructor
  · intro hskip l nodeCost kvCost mvCost mtu used hvalid hin
    rw [List.mem_map] at hin
    obtain ⟨entry, hentry, hcid⟩ := hin
    have h1 : entry.stale ∈ (buildDelta nodeCost kvCost mvCost mtu l used).map
        (fun e => e.stale) := List.mem_map_of_mem _ hentry
    have h2 : entry.stale ∈ l :=
      (buildDelta_stales_sublist nodeCost kvCost mvCost mtu l used).subset h1
    have h3 : entry.stale ∈ computeOffers node_states digest excluded :=
      hvalid.1.subset h2
    obtain ⟨hmem2, _, hlt⟩ := mem_computeOffers node_states digest excluded entry.stale h3
    rw [hcid] at hmem2 hlt
    have heq := nodup_keys_value_eq node_states cid entry.stale.node_state ns hnodup hmem2 hmem
    rw [heq] at hlt
    omega
  · intro hlt
    rw [← offerFve_eq]
    clear hnodup
    induction node_states with
    | nil => exact absurd hmem (List.not_mem_nil _)
    | cons hd rest ih =>
      obtain ⟨c0, n0⟩ := hd
      rcases List.mem_cons.mp hmem with hh | hh
      · rw [Prod.mk.injEq] at hh
        obtain ⟨hc, hn⟩ := hh
        subst hc
        subst hn
        simp only [computeOffers]
        rw [if_neg hexcl]
        have h2 : ¬ ns.max_version ≤ (digestPair digest cid).2 := by omega
        rw [if_neg h2]
        obtain ⟨st, hst⟩ := stalenessScore_offer_some digest cid ns hlt
        rw [hst]
        exact List.mem_cons_self ..
      · have hmemtail := ih hh
        simp only [computeOffers]
        by_cases h1 : c0 ∈ excluded
        · rw [if_pos h1]
          exact hmemtail
        · rw [if_neg h1]
          by_cases h2 : n0.max_version ≤ (digestPair digest c0).2
          · rw [if_pos h2]
            exact hmemtail
          · rw [if_neg h2]
            cases hss : stalenessScore n0 (offerFve digest c0 n0) with
            | none => exact hmemtail
            | some st => exact List.mem_cons_of_mem _ hmemtail

/-- Concrete digest for the C5 witness: peer A behind our last_gc_version on
both components, triggering the reset offer. -/
def wDigestC5 : List (ChitchatId × NodeDigestV2) :=
  [(cidA, { heartbeat := 0, last_gc_version := 1, max_version := 2 })]

/-- Concrete node state for the C5 witness. -/
def wNsC5 : NodeState :=
  { chitchat_id := cidA, heartbeat := 0
    key_values := [("k", { value := "v", version := 9, status := .set })]
    max_version := 9, last_gc_version := 5 }

/-- Closed witness for C5: the concrete peer is offered with
from_version_excluded = 0 (reset), as the claim states. -/
theorem compute_delta_offer_spec_witness :
    ({ chitchat_id := cidA, node_state := wNsC5, from_version_excluded := 0 } : StaleNode) ∈
      computeOffers [(cidA, wNsC5)] wDigestC5 [] := by
  have h := (compute_delta_offer_spec [(cidA, wNsC5)] wDigestC5 [] cidA wNsC5
    (by decide) (by decide) (by decide)).2 (by decide)
  have hcond : ((digestPair wDigestC5 cidA).1 < wNsC5.last_gc_version ∧
      (digestPair wDigestC5 cidA).2 < wNsC5.last_gc_version) := by decide
  rw [if_pos hcond] at h
  exact h

/-- Little-endian u16 encoder (2 bytes). Modelled from the spec §4.7
("length-prefixed, little-endian fixed widths"): serialize.rs is not under
src/. Bytes are Nat values below 256. -/
def serializeU16 (n : Nat) : List Nat :=
  [n % 256, n / 256 % 256]

/-- Little-endian u64 encoder (8 bytes). Modelled from the spec §4.7. -/
def serializeU64 (n : Nat) : List Nat :=
  [n % 256, n / 256 % 256, n / 256 ^ 2 % 256, n / 256 ^ 3 % 256,
   n / 256 ^ 4 % 256, n / 256 ^ 5 % 256, n / 256 ^ 6 % 256, n / 256 ^ 7 % 256]

/-- String encoder: u16 length prefix + bytes (spec §4.7). Modelled from the
spec; the payload is modelled as the code points of the string, which
coincides with UTF-8 for the ASCII identifiers used below. -/
def serializeString (s : String) : List Nat :=
  serializeU16 s.data.length ++ s.data.map Char.toNat

/-- Socket address encoder: tag byte + address bytes + u16 port. Modelled
from the spec §4.7 ("tagged v4/v6 + port"). -/
def serializeSocketAddr : SocketAddr → List Nat
  | .v4 ip port => 4 :: (ip ++ serializeU16 port)
  | .v6 ip port => 6 :: (ip ++ serializeU16 port)

/-- ChitchatId encoder: node_id, generation_id (u64), gossip address (spec
§4.7). -/
def serializeChitchatId (cid : ChitchatId) : List Nat :=
  serializeString cid.node_id ++ serializeU64 cid.generation_id ++
    serializeSocketAddr cid.gossip_advertise_addr

/-- NodeDigest (digest.rs lines 6-19): the per-peer synopsis carries a
heartbeat and a max_version, and nothing else. -/
structure NodeDigest where
  heartbeat : Nat
  max_version : Nat
deriving DecidableEq

/-- Digest (digest.rs lines 26-29): map peer -> NodeDigest, modelled as an
association list in map order. -/
structure Digest where
  node_digests : List (ChitchatId × NodeDigest)
deriving DecidableEq

/-- impl Serializable for Digest, serialize (digest.rs lines 40-47): push the
u16 node count, then for each node the ChitchatId, the heartbeat (u64) and
the max_version (u64). -/
def digestSerialize (d : Digest) : List Nat :=
  d.node_digests.foldl
    (fun buf kv => buf ++ serializeChitchatId kv.1 ++ serializeU64 kv.2.heartbeat ++
      serializeU64 kv.2.max_version)
    (serializeU16 d.node_digests.length)

/-- impl Serializable for Digest, serialized_len (digest.rs lines 48-56),
with each primitive's serialized_len taken as the length of its encoding. -/
def digestSerializedLen (d : Digest) : Nat :=
  d.node_digests.foldl
    (fun len kv => len + (serializeChitchatId kv.1).length +
      (serializeU64 kv.2.heartbeat).length + (serializeU64 kv.2.max_version).length)
    (serializeU16 d.node_digests.length).length

/-- The per-peer digest triple asserted by the claim (heartbeat,
last_gc_version, max_version). Stated from the claim's words, to be compared
against the source encoder. -/
structure NodeDigestClaimed where
  heartbeat : Nat
  last_gc_version : Nat
  max_version : Nat
deriving DecidableEq

/-- The wire encoding asserted by the claim: u16 count then, per node, the
ChitchatId, heartbeat u64, last_gc_version u64 and max_version u64. Stated
from the claim's words. -/
def digestSerializeClaimed (entries : List (ChitchatId × NodeDigestClaimed)) : List Nat :=
  serializeU16 entries.length ++
    (entries.map (fun kv =>
      serializeChitchatId kv.1 ++ serializeU64 kv.2.heartbeat ++
        serializeU64 kv.2.last_gc_version ++ serializeU64 kv.2.max_version)).flatten

/-- Auxiliary: the digest serialization fold flattens to a map. -/
theorem digestSerialize_fold (l : List (ChitchatId × NodeDigest)) :
    ∀ buf : List Nat,
      l.foldl
        (fun buf kv => buf ++ serializeChitchatId kv.1 ++ serializeU64 kv.2.heartbeat ++
          serializeU64 kv.2.max_version) buf =
      buf ++ (l.map (fun kv =>
        serializeChitchatId kv.1 ++ serializeU64 kv.2.heartbeat ++
          serializeU64 kv.2.max_version)).flatten := by
  induction l with
  | nil => intro buf; simp
  | cons kv rest ih =>
    intro buf
    rw [List.foldl_cons, ih, List.map_cons, List.flatten_cons]
    simp [List.append_assoc]

/-- Auxiliary: the digest serialized_len fold. -/
theorem digestSerializedLen_fold (l : List (ChitchatId × NodeDigest)) :
    ∀ n : Nat,
      l.foldl
        (fun len kv => len + (serializeChitchatId kv.1).length +
          (serializeU64 kv.2.heartbeat).length + (serializeU64 kv.2.max_version).length) n =
      n + ((l.map (fun kv =>
        serializeChitchatId kv.1 ++ serializeU64 kv.2.heartbeat ++
          serializeU64 kv.2.max_version)).flatten).length := by
  induction l with
  | nil => intro n; simp
  | cons kv rest ih =>
    intro n
    rw [List.foldl_cons, ih, List.map_cons, List.flatten_cons]
    simp [List.length_append]
    omega

/-- C8 counterexample: at a concrete one-node digest, the encoding produced
by the source (digest.rs) is not the encoding the claim describes: it is 8
bytes shorter, because NodeDigest carries no last_gc_version and none is
written on the wire. -/
theorem digest_wire_counterexample :
    digestSerialize
        { node_digests := [(cidA, { heartbeat := 7, max_version := 9 })] } ≠
      digestSerializeClaimed [(cidA, { heartbeat := 7, last_gc_version := 0, max_version := 9 })] ∧
    (digestSerialize
        { node_digests := [(cidA, { heartbeat := 7, max_version := 9 })] }).length + 8 =
      (digestSerializeClaimed
        [(cidA, { heartbeat := 7, last_gc_version := 0, max_version := 9 })]).length := by
  have hlen : (digestSerialize
      { node_digests := [(cidA, { heartbeat := 7, max_version := 9 })] }).length + 8 =
      (digestSerializeClaimed
        [(cidA, { heartbeat := 7, last_gc_version := 0, max_version := 9 })]).length := by
    unfold digestSerialize digestSerializeClaimed
    rw [digestSerialize_fold]
    simp [List.length_append, serializeU64, serializeU16]
  refine ⟨?_, hlen⟩
  intro heq
  rw [heq] at hlen
  omega

/-- C8 amended: the Digest of digest.rs maps each peer to the pair
(heartbeat, max_version); its wire encoding is a u16 node count followed,
for each node, by the ChitchatId, the heartbeat as a u64 and the max_version
as a u64; and serialized_len agrees with the length of the encoding. -/
theorem digest_wire_format (d : Digest) :
    digestSerialize d =
      serializeU16 d.node_digests.length ++
        (d.node_digests.map (fun kv =>
          serializeChitchatId kv.1 ++ serializeU64 kv.2.heartbeat ++
            serializeU64 kv.2.max_version)).flatten ∧
    digestSerializedLen d = (digestSerialize d).length := by
  constructor
  · unfold digestSerialize
    rw [digestSerialize_fold]
  · unfold digestSerialize digestSerializedLen
    rw [digestSerialize_fold, digestSerializedLen_fold]
    simp [List.length_append]

/-- The seed picked by seed_nodes.iter().choose(rng) (server.rs line 314),
modelled with the RNG reduced to a supplied index: none iff there is no
seed. -/
def seedPick (seed_nodes : List String) (pickIdx : Nat) : Option String :=
  if seed_nodes.isEmpty then none else seed_nodes[pickIdx % seed_nodes.length]?

/-- select_seed_node_to_gossip_with (server.rs lines 305-325). The f64 draw
of rng.gen::<f64>() in [0, 1) and the f64 division are modelled over Rat
(exact at the small counts appearing in the settled claims); the selection
succeeds when the probability is at least the draw. -/
def selectSeedNodeToGossipWith (seed_nodes : List String)
    (live_nodes_count dead_nodes_count : Nat) (pickIdx : Nat) (draw : Rat) : Option String :=
  if live_nodes_count = 0 then seedPick seed_nodes pickIdx
  else if (seed_nodes.length : Rat) / ((live_nodes_count : Rat) + (dead_nodes_count : Rat)) ≥ draw
  then seedPick seed_nodes pickIdx
  else none

/-- Seed-selection gate of select_nodes_for_gossip (server.rs lines
262-282): has_gossiped_with_a_seed_node is whether one of the chosen nodes
is a seed; the selection function runs iff that is false or the live count
is below the seed count, and otherwise no seed is gossiped. -/
def selectSeedForGossip (chosen_nodes seed_nodes : List String)
    (live_nodes_count dead_nodes_count : Nat) (pickIdx : Nat) (draw : Rat) : Option String :=
  if !(chosen_nodes.any (fun node_id => seed_nodes.contains node_id)) ||
     decide (live_nodes_count < seed_nodes.length) then
    selectSeedNodeToGossipWith seed_nodes live_nodes_count dead_nodes_count pickIdx draw
  else none

/-- C9 counterexample: with one chosen node that is not a seed (so the claim
demands that a seed is always selected), one seed, two live nodes, no dead
node and an RNG draw of 3/4, the code selects no seed: the acceptance test
1/2 >= 3/4 fails. The f64 values 1/2 and 3/4 are exactly representable, so
the Rat model is faithful at this input. -/
theorem seed_selection_counterexample :
    (["live-1"].any (fun node_id => ["seed-1"].contains node_id)) = false ∧
    selectSeedForGossip ["live-1"] ["seed-1"] 2 0 0 (3 / 4 : Rat) = none := by
  constructor
  · decide
  · unfold selectSeedForGossip selectSeedNodeToGossipWith
    have h1 : (["live-1"].any (fun node_id => ["seed-1"].contains node_id)) = false := by decide
    rw [h1]
    have h2 : ¬ ((([ "seed-1" ] : List String).length : Rat) / ((2 : Nat) + (0 : Nat) : Rat) ≥
        (3 / 4 : Rat)) := by
      norm_num
    simp only [Bool.not_false, Bool.true_or, if_true]
    rw [if_neg (by norm_num), if_neg h2]

/-- C9 amended: a seed node is selected on a gossip tick iff the seed branch
is taken (none of the chosen nodes is a seed, or the live count is below the
seed count), the seed set is nonempty, and either no node is live or the
draw passes the probability test |seeds| / (|live| + |dead|) >= draw. -/
theorem seed_selection_spec (chosen_nodes seed_nodes : List String)
    (live_nodes_count dead_nodes_count pickIdx : Nat) (draw : Rat) :
    (selectSeedForGossip chosen_nodes seed_nodes live_nodes_count dead_nodes_count pickIdx
        draw).isSome = true ↔
      ((chosen_nodes.any (fun node_id => seed_nodes.contains node_id) = false ∨
          live_nodes_count < seed_nodes.length) ∧
        seed_nodes ≠ [] ∧
        (live_nodes_count = 0 ∨
          (seed_nodes.length : Rat) / ((live_nodes_count : Rat) + (dead_nodes_count : Rat)) ≥
            draw)) := by
  have hpick : (seedPick seed_nodes pickIdx).isSome = true ↔ seed_nodes ≠ [] := by
    unfold seedPick
    by_cases he : seed_nodes.isEmpty = true
    · rw [if_pos he]
      simp [List.isEmpty_iff.mp he]
    · rw [if_neg he]
      have hne : seed_nodes ≠ [] := by
        intro hc
        exact he (by simp [hc])
      have hlt : pickIdx % seed_nodes.length < seed_nodes.length :=
        Nat.mod_lt _ (List.length_pos.mpr hne)
      simp [List.getElem?_eq_getElem hlt, hne]
  unfold selectSeedForGossip selectSeedNodeToGossipWith
  by_cases hb : (!(chosen_nodes.any (fun node_id => seed_nodes.contains node_id)) ||
      decide (live_nodes_count < seed_nodes.length)) = true
  · rw [if_pos hb]
    have hb2 : chosen_nodes.any (fun node_id => seed_nodes.contains node_id) = false ∨
        live_nodes_count < seed_nodes.length := by
      rcases Bool.or_eq_true_iff.mp hb with h | h
      · left
        cases hx : chosen_nodes.any (fun node_id => seed_nodes.contains node_id) with
        | false => rfl
        | true => rw [hx] at h; exact absurd h (by decide)
      · right
        exact of_decide_eq_true h
    by_cases hl : live_nodes_count = 0
    · rw [if_pos hl]
      rw [hpick]
      constructor
      · intro hs
        exact ⟨hb2, hs, Or.inl hl⟩
      · rintro ⟨-, hs, -⟩
        exact hs
    · rw [if_neg hl]
      by_cases hp : (seed_nodes.length : Rat) /
          ((live_nodes_count : Rat) + (dead_nodes_count : Rat)) ≥ draw
      · rw [if_pos hp, hpick]
        constructor
        · intro hs
          exact ⟨hb2, hs, Or.inr hp⟩
        · rintro ⟨-, hs, -⟩
          exact hs
      · rw [if_neg hp]
        simp only [Option.isSome_none, Bool.false_eq_true, false_iff]
        rintro ⟨-, -, hc | hc⟩
        · exact hl hc
        · exact hp hc
  · rw [if_neg hb]
    simp only [Option.isSome_none, Bool.false_eq_true, false_iff]
    rintro ⟨hc | hc, -, -⟩
    · apply hb
      rw [hc]
      simp
    · apply hb
      rw [Bool.or_eq_true_iff]
      right
      exact decide_eq_true hc

/-- FailureDetectorConfig (failure_detector.rs lines 129-141), durations and
the phi threshold in seconds over Rat. -/
structure FailureDetectorConfig where
  phi_threshold : Rat
  sampling_window_size : Nat
  max_interval : Rat
  initial_interval : Rat
  dead_node_grace_period : Rat
deriving DecidableEq

/-- BoundedArrayStats (failure_detector.rs lines 223-281), f64 over Rat. -/
structure BoundedArrayStats where
  data : List Rat
  size : Nat
  is_filled : Bool
  index : Nat
  sum : Rat
  mean : Rat
deriving DecidableEq

/-- BoundedArrayStats::new. -/
def BoundedArrayStats.mkNew (size : Nat) : BoundedArrayStats :=
  { data := List.replicate size 0, size := size, is_filled := false, index := 0,
    sum := 0, mean := 0 }

/-- BoundedArrayStats::len. -/
def BoundedArrayStats.len (b : BoundedArrayStats) : Nat :=
  if b.is_filled then b.size else b.index

/-- BoundedArrayStats::append (failure_detector.rs lines 258-273). -/
def BoundedArrayStats.append (b : BoundedArrayStats) (interval : Rat) : BoundedArrayStats :=
  let b1 := if b.index == b.size then { b with is_filled := true, index := 0 } else b
  let b2 := if b1.is_filled then { b1 with sum := b1.sum - b1.data.getD b1.index 0 } else b1
  let b3 := { b2 with sum := b2.sum + interval }
  let b4 := { b3 with data := b3.data.set b3.index interval, index := b3.index + 1 }
  { b4 with mean := b4.sum / (b4.len : Rat) }

/-- SamplingWindow (failure_detector.rs lines 173-221). -/
structure SamplingWindow where
  intervals : BoundedArrayStats
  last_heartbeat : Option Rat
  max_interval : Rat
  initial_interval : Rat
deriving DecidableEq

/-- SamplingWindow::new. -/
def SamplingWindow.mkNew (window_size : Nat) (max_interval initial_interval : Rat) :
    SamplingWindow :=
  { intervals := BoundedArrayStats.mkNew window_size, last_heartbeat := none,
    max_interval := max_interval, initial_interval := initial_interval }

/-- SamplingWindow::report_heartbeat: seed the initial interval on the first
report, otherwise record the elapsed interval iff it is within max_interval;
always update last_heartbeat. -/
def SamplingWindow.reportHeartbeat (w : SamplingWindow) (now : Rat) : SamplingWindow :=
  match w.last_heartbeat with
  | some last_value =>
    if now - last_value ≤ w.max_interval then
      { w with intervals := w.intervals.append (now - last_value), last_heartbeat := some now }
    else
      { w with last_heartbeat := some now }
  | none =>
    { w with intervals := w.intervals.append w.initial_interval, last_heartbeat := some now }

/-- SamplingWindow::phi: none stands for +infinity (no heartbeat yet),
otherwise elapsed time over the running mean. -/
def SamplingWindow.phi (w : SamplingWindow) (now : Rat) : Option Rat :=
  match w.last_heartbeat with
  | some last_heartbeat => some ((now - last_heartbeat) / w.intervals.mean)
  | none => none

/-- The comparison phi > phi_threshold, with +infinity (none) exceeding
every threshold. -/
def phiExceeds (phiVal : Option Rat) (threshold : Rat) : Bool :=
  match phiVal with
  | none => true
  | some q => decide (threshold < q)

/-- FailureDetector (failure_detector.rs lines 11-20): sampling windows,
live set and dead map (to time of death), all modelled as lists. -/
structure FailureDetector where
  node_samples : List (ChitchatId × SamplingWindow)
  config : FailureDetectorConfig
  live_nodes : List ChitchatId
  dead_nodes : List (ChitchatId × Rat)
deriving DecidableEq

/-- FailureDetector::new (failure_detector.rs lines 23-30). -/
def FailureDetector.mkNew (config : FailureDetectorConfig) : FailureDetector :=
  { node_samples := [], config := config, live_nodes := [], dead_nodes := [] }

/-- Association lookup in the sampling-window map. -/
def samplesGet : List (ChitchatId × SamplingWindow) → ChitchatId → Option SamplingWindow
  | [], _ => none
  | (cid0, w) :: rest, cid => if cid0 = cid then some w else samplesGet rest cid

/-- In-place replacement in the sampling-window map. -/
def samplesSet : List (ChitchatId × SamplingWindow) → ChitchatId → SamplingWindow →
    List (ChitchatId × SamplingWindow)
  | [], cid, w => [(cid, w)]
  | (cid0, w0) :: rest, cid, w =>
    if cid0 = cid then (cid0, w) :: rest else (cid0, w0) :: samplesSet rest cid w

/-- FailureDetector::report_heartbeat (failure_detector.rs lines 33-46):
get-or-create the window, then report. -/
def FailureDetector.reportHeartbeat (fd : FailureDetector) (cid : ChitchatId) (now : Rat) :
    FailureDetector :=
  match samplesGet fd.node_samples cid with
  | some w =>
    { fd with node_samples := samplesSet fd.node_samples cid (w.reportHeartbeat now) }
  | none =>
    { fd with node_samples := fd.node_samples ++
        [(cid, (SamplingWindow.mkNew fd.config.sampling_window_size fd.config.max_interval
          fd.config.initial_interval).reportHeartbeat now)] }

/-- FailureDetector::report_unknown (failure_detector.rs lines 48-59):
create an empty window if absent. -/
def FailureDetector.reportUnknown (fd : FailureDetector) (cid : ChitchatId) :
    FailureDetector :=
  match samplesGet fd.node_samples cid with
  | some _ => fd
  | none =>
    { fd with node_samples := fd.node_samples ++
        [(cid, SamplingWindow.mkNew fd.config.sampling_window_size fd.config.max_interval
          fd.config.initial_interval)] }

/-- FailureDetector::update_node_liveness (failure_detector.rs lines 62-76):
only when a sampling window exists (phi defined): above the threshold the
node moves to dead_nodes with its time of death and its window is dropped;
otherwise the node moves to live_nodes. -/
def FailureDetector.updateNodeLiveness (fd : FailureDetector) (cid : ChitchatId) (now : Rat) :
    FailureDetector :=
  match samplesGet fd.node_samples cid with
  | none => fd
  | some w =>
    if phiExceeds (w.phi now) fd.config.phi_threshold then
      { fd with
        live_nodes := fd.live_nodes.filter (fun x => decide (x ≠ cid))
        dead_nodes := (cid, now) :: fd.dead_nodes.filter (fun kv => decide (kv.1 ≠ cid))
        node_samples := fd.node_samples.filter (fun kv => decide (kv.1 ≠ cid)) }
    else
      { fd with
        live_nodes := if cid ∈ fd.live_nodes then fd.live_nodes else cid :: fd.live_nodes
        dead_nodes := fd.dead_nodes.filter (fun kv => decide (kv.1 ≠ cid)) }

/-- FailureDetector::garbage_collect (failure_detector.rs lines 79-91):
remove and return the dead nodes past the grace period. -/
def FailureDetector.garbageCollect (fd : FailureDetector) (now : Rat) :
    FailureDetector × List ChitchatId :=
  ({ fd with
      dead_nodes :=
        fd.dead_nodes.filter
          (fun kv => decide (¬ kv.2 + fd.config.dead_node_grace_period ≤ now)) },
   (fd.dead_nodes.filter
      (fun kv => decide (kv.2 + fd.config.dead_node_grace_period ≤ now))).map Prod.fst)

/-- One call against the failure detector. -/
inductive FdAction where
  | reportHeartbeat (cid : ChitchatId) (now : Rat)
  | reportUnknown (cid : ChitchatId)
  | updateNodeLiveness (cid : ChitchatId) (now : Rat)
  | garbageCollect (now : Rat)

/-- Application of one call. -/
def FdAction.apply (fd : FailureDetector) : FdAction → FailureDetector
  | .reportHeartbeat cid now => fd.reportHeartbeat cid now
  | .reportUnknown cid => fd.reportUnknown cid
  | .updateNodeLiveness cid now => fd.updateNodeLiveness cid now
  | .garbageCollect now => (fd.garbageCollect now).1

/-- Sequential application of calls. -/
def runFdActions (fd : FailureDetector) : List FdAction → FailureDetector
  | [] => fd
  | a :: rest => runFdActions (a.apply fd) rest

/-- No ChitchatId is both live and dead. -/
def liveDeadDisjoint (fd : FailureDetector) : Prop :=
  ∀ cid : ChitchatId, cid ∈ fd.live_nodes → cid ∉ fd.dead_nodes.map Prod.fst

/-- report_heartbeat touches only the sampling windows. -/
theorem reportHeartbeat_sets (fd : FailureDetector) (cid : ChitchatId) (now : Rat) :
    (fd.reportHeartbeat cid now).live_nodes = fd.live_nodes ∧
    (fd.reportHeartbeat cid now).dead_nodes = fd.dead_nodes := by
  unfold FailureDetector.reportHeartbeat
  cases samplesGet fd.node_samples cid <;> exact ⟨rfl, rfl⟩

/-- report_unknown touches only the sampling windows. -/
theorem reportUnknown_sets (fd : FailureDetector) (cid : ChitchatId) :
    (fd.reportUnknown cid).live_nodes = fd.live_nodes ∧
    (fd.reportUnknown cid).dead_nodes = fd.dead_nodes := by
  unfold FailureDetector.reportUnknown
  cases samplesGet fd.node_samples cid <;> exact ⟨rfl, rfl⟩

/-- Branch equations of update_node_liveness. -/
theorem updateNodeLiveness_eq (fd : FailureDetector) (cid : ChitchatId) (now : Rat) :
    (samplesGet fd.node_samples cid = none → fd.updateNodeLiveness cid now = fd) ∧
    (∀ w, samplesGet fd.node_samples cid = some w →
      (phiExceeds (w.phi now) fd.config.phi_threshold = true →
        fd.updateNodeLiveness cid now =
          { fd with
            live_nodes := fd.live_nodes.filter (fun x => decide (x ≠ cid))
            dead_nodes := (cid, now) :: fd.dead_nodes.filter (fun kv => decide (kv.1 ≠ cid))
            node_samples := fd.node_samples.filter (fun kv => decide (kv.1 ≠ cid)) }) ∧
      (phiExceeds (w.phi now) fd.config.phi_threshold = false →
        fd.updateNodeLiveness cid now =
          { fd with
            live_nodes := if cid ∈ fd.live_nodes then fd.live_nodes else cid :: fd.live_nodes
            dead_nodes := fd.dead_nodes.filter (fun kv => decide (kv.1 ≠ cid)) })) := by
  constructor
  · intro hs
    unfold FailureDetector.updateNodeLiveness
    rw [hs]
  · intro w hs
    constructor
    · intro hphi
      unfold FailureDetector.updateNodeLiveness
      rw [hs]
      simp only [hphi, if_true]
    · intro hphi
      unfold FailureDetector.updateNodeLiveness
      rw [hs]
      simp only [hphi, Bool.false_eq_true, if_false]

/-- Every single call preserves live/dead disjointness. -/
theorem fdAction_preserves_disjoint (fd : FailureDetector) (a : FdAction)
    (h : liveDeadDisjoint fd) : liveDeadDisjoint (a.apply fd) := by
  cases a with
  | reportHeartbeat cid now =>
    intro x hx
    have happly : FdAction.apply fd (.reportHeartbeat cid now) =
        fd.reportHeartbeat cid now := rfl
    rw [happly] at hx ⊢
    rw [(reportHeartbeat_sets fd cid now).2]
    rw [(reportHeartbeat_sets fd cid now).1] at hx
    exact h x hx
  | reportUnknown cid =>
    intro x hx
    have happly : FdAction.apply fd (.reportUnknown cid) = fd.reportUnknown cid := rfl
    rw [happly] at hx ⊢
    rw [(reportUnknown_sets fd cid).2]
    rw [(reportUnknown_sets fd cid).1] at hx
    exact h x hx
  | updateNodeLiveness cid now =>
    have happly : FdAction.apply fd (.updateNodeLiveness cid now) =
        fd.updateNodeLiveness cid now := rfl
    rw [happly]
    cases hs : samplesGet fd.node_samples cid with
    | none =>
      rw [(updateNodeLiveness_eq fd cid now).1 hs]
      exact h
    | some w =>
      by_cases hphi : phiExceeds (w.phi now) fd.config.phi_threshold = true
      · rw [((updateNodeLiveness_eq fd cid now).2 w hs).1 hphi]
        intro x hx
        simp only [List.mem_filter, decide_eq_true_eq] at hx
        simp only [List.map_cons, List.mem_cons, List.mem_map, List.mem_filter,
          decide_eq_true_eq]
        rintro (hc | ⟨kv, ⟨hkv, -⟩, hfst⟩)
        · exact hx.2 hc
        · exact h x hx.1 (by rw [← hfst]; exact List.mem_map_of_mem Prod.fst hkv)
      · have hphi2 : phiExceeds (w.phi now) fd.config.phi_threshold = false := by
          cases hb : phiExceeds (w.phi now) fd.config.phi_threshold with
          | false => rfl
          | true => exact absurd hb hphi
        rw [((updateNodeLiveness_eq fd cid now).2 w hs).2 hphi2]
        intro x hx
        simp only [List.mem_map, List.mem_filter, decide_eq_true_eq]
        rintro ⟨kv, ⟨hkv, hne⟩, hfst⟩
        by_cases hin : cid ∈ fd.live_nodes
        · rw [if_pos hin] at hx
          exact h x hx (List.mem_map.mpr ⟨kv, hkv, hfst⟩)
        · rw [if_neg hin] at hx
          rcases List.mem_cons.mp hx with hc | hc
          · exact hne (hfst.trans hc)
          · exact h x hc (List.mem_map.mpr ⟨kv, hkv, hfst⟩)
  | garbageCollect now =>
    intro x hx
    have happly : FdAction.apply fd (.garbageCollect now) = (fd.garbageCollect now).1 := rfl
    rw [happly] at hx ⊢
    unfold FailureDetector.garbageCollect at hx ⊢
    simp only [List.mem_map, List.mem_filter] at hx ⊢
    rintro ⟨kv, ⟨hkv, -⟩, hfst⟩
    exact h x hx (List.mem_map.mpr ⟨kv, hkv, hfst⟩)

/-- Running any sequence of calls preserves live/dead disjointness. -/
theorem runFdActions_preserves_disjoint :
    ∀ (acts : List FdAction) (fd : FailureDetector), liveDeadDisjoint fd →
      liveDeadDisjoint (runFdActions fd acts) := by
  intro acts
  induction acts with
  | nil => intro fd h; exact h
  | cons a rest ih =>
    intro fd h
    exact ih (a.apply fd) (fdAction_preserves_disjoint fd a h)

/-- Concrete failure-detector configuration for the closed statements
(threshold 8, window 3, max interval 10 s, initial interval 5 s, grace 24 h). -/
def wCfg : FailureDetectorConfig :=
  { phi_threshold := 8, sampling_window_size := 3, max_interval := 10,
    initial_interval := 5, dead_node_grace_period := 86400 }

/-- C10 counterexample: on a fresh FailureDetector, where the node has no
sampling window, update_node_liveness inserts the node into neither set
(the claim says it always inserts it into exactly one). -/
theorem update_liveness_no_window_counterexample :
    ¬ (cidA ∈ ((FailureDetector.mkNew wCfg).updateNodeLiveness cidA 0).live_nodes ∨
       cidA ∈ ((FailureDetector.mkNew wCfg).updateNodeLiveness cidA 0).dead_nodes.map
         Prod.fst) := by
  decide

/-- C10 amended: starting from FailureDetector::new, after any sequence of
report_heartbeat, report_unknown, update_node_liveness and garbage_collect
calls no ChitchatId is simultaneously live and dead; update_node_liveness,
whenever the node has a sampling window, inserts the node into exactly one
of the two sets while removing it from the other, and is the identity when
there is no window; and garbage_collect only removes entries from
dead_nodes (live set and windows untouched). -/
theorem failure_detector_sets_spec (cfg : FailureDetectorConfig) (acts : List FdAction) :
    liveDeadDisjoint (runFdActions (FailureDetector.mkNew cfg) acts) ∧
    (∀ (fd : FailureDetector) (cid : ChitchatId) (now : Rat),
      ((samplesGet fd.node_samples cid).isSome = true →
        ((cid ∈ (fd.updateNodeLiveness cid now).live_nodes ∧
          cid ∉ (fd.updateNodeLiveness cid now).dead_nodes.map Prod.fst) ∨
         (cid ∉ (fd.updateNodeLiveness cid now).live_nodes ∧
          cid ∈ (fd.updateNodeLiveness cid now).dead_nodes.map Prod.fst))) ∧
      (samplesGet fd.node_samples cid = none → fd.updateNodeLiveness cid now = fd)) ∧
    (∀ (fd : FailureDetector) (now : Rat),
      (fd.garbageCollect now).1.live_nodes = fd.live_nodes ∧
      (fd.garbageCollect now).1.node_samples = fd.node_samples ∧
      (fd.garbageCollect now).1.dead_nodes =
        fd.dead_nodes.filter
          (fun kv => decide (¬ kv.2 + fd.config.dead_node_grace_period ≤ now))) := by
  refine ⟨?_, ?_, ?_⟩
  · apply runFdActions_preserves_disjoint
    intro cid hc
    exact absurd hc (List.not_mem_nil _)
  · intro fd cid now
    constructor
    · intro hsome
      cases hs : samplesGet fd.node_samples cid with
      | none => rw [hs] at hsome; exact absurd hsome (by simp)
      | some w =>
        by_cases hphi : phiExceeds (w.phi now) fd.config.phi_threshold = true
        · right
          rw [((updateNodeLiveness_eq fd cid now).2 w hs).1 hphi]
          constructor
          · intro hc
            simp only [List.mem_filter, decide_eq_true_eq] at hc
            exact hc.2 rfl
          · simp
        · left
          have hphi2 : phiExceeds (w.phi now) fd.config.phi_threshold = false := by
            cases hb : phiExceeds (w.phi now) fd.config.phi_threshold with
            | false => rfl
            | true => exact absurd hb hphi
          rw [((updateNodeLiveness_eq fd cid now).2 w hs).2 hphi2]
          constructor
          · by_cases hin : cid ∈ fd.live_nodes
            · rw [if_pos hin]; exact hin
            · rw [if_neg hin]; exact List.mem_cons_self ..
          · intro hc
            simp only [List.mem_map, List.mem_filter, decide_eq_true_eq] at hc
            obtain ⟨kv, ⟨-, hne⟩, hfst⟩ := hc
            exact hne hfst
    · exact (updateNodeLiveness_eq fd cid now).1
  · intro fd now
    exact ⟨rfl, rfl, rfl⟩

/-- Closed witness for C10: a node that has a sampling window (created by
report_unknown) lands in exactly one of the two sets after
update_node_liveness. -/
theorem failure_detector_sets_spec_witness :
    (cidA ∈ (((FailureDetector.mkNew wCfg).reportUnknown cidA).updateNodeLiveness cidA
        0).live_nodes ∧
      cidA ∉ (((FailureDetector.mkNew wCfg).reportUnknown cidA).updateNodeLiveness cidA
        0).dead_nodes.map Prod.fst) ∨
    (cidA ∉ (((FailureDetector.mkNew wCfg).reportUnknown cidA).updateNodeLiveness cidA
        0).live_nodes ∧
      cidA ∈ (((FailureDetector.mkNew wCfg).reportUnknown cidA).updateNodeLiveness cidA
        0).dead_nodes.map Prod.fst) :=
  ((failure_detector_sets_spec wCfg []).2.1 ((FailureDetector.mkNew wCfg).reportUnknown cidA)
    cidA 0).1 (by decide)
